import Mathlib

/-!
Shallow embedding of the fast-marching distance-function core of
`fipy/models/levelSet/distanceFunction/distanceVariable.py`.

Machine floats are modelled by exact rationals; the floating-point square
root called by the source (`Numeric.sqrt` / `MA.sqrt`) is an explicit
function parameter `sqrtFn`.  Masked adjacency slots are `Option Nat`
entries; the filled arrays cached in `DistanceVariable.__init__` are
recovered by filling masked ids with the cell's own id
(`_getCellToCellIDsFilled`) and masked distances / normals / areas with
`0`, exactly as the constructor's `.filled(0)` calls do.  A raised
exception is modelled by `Option.none` threaded through the pass.
-/

/- The Batteries library marks the rational-arithmetic primitives
irreducible, which blocks `decide` on concrete runs of the embedding;
restore the default reducibility so concrete evaluations go through. -/
set_option allowUnsafeReducibility true in
attribute [semireducible] Rat.mul Rat.add Rat.sub Rat.div Rat.inv Rat.neg

/-- Mesh data consumed read-only by `DistanceVariable`, as cached in
`__init__`: per cell the masked neighbor ids, the cell-to-cell distances,
the neighbor normals (dimension at most 2; in 1-D the second component is
0 and is never read by reachable code) and the face areas, plus the mesh
dimension and the cell count. -/
structure Mesh where
  dim : Nat
  numberOfCells : Nat
  cellToCellIDs : List (List (Option Nat))
  cellToCellDistances : List (List ℚ)
  cellNormals : List (List (ℚ × ℚ))
  cellAreas : List (List ℚ)
deriving Repr

/-- The sentinel `1e+10` assigned to not-yet-evaluated neighbors so that
they sort last (`Numeric.where(adjEvaluatedFlag, adjValues, 1e+10)`). -/
def sentinel : ℚ := 10 ^ 10

/-- The default `narrowBandWidth = 1e+10` of `DistanceVariable.__init__`. -/
def defaultNarrowBandWidth : ℚ := 10 ^ 10

/-- Rational square-root oracle used to instantiate `sqrtFn` on concrete
runs: exact wherever the real square root is rational (where it agrees
with the source's float square root), and 0 elsewhere.  Every concrete
run below only applies it at perfect squares. -/
def ratSqrt (q : ℚ) : ℚ :=
  if 0 ≤ q then
    match (List.range (q.num.natAbs + 1)).find? (fun k => k * k = q.num.natAbs),
        (List.range (q.den + 1)).find? (fun k => k * k = q.den) with
    | some a, some b => (a : ℚ) / (b : ℚ)
    | _, _ => 0
  else 0

/-- `self.cellToCellIDs[id]`: the masked neighbor ids of `id` with masked
slots filled by the cell's own id (`_getCellToCellIDsFilled`). -/
def trialAdjIDs (m : Mesh) (id : Nat) : List Nat :=
  (m.cellToCellIDs.getD id []).map (fun o => o.getD id)

/-- The cell id stored in neighbor slot `k` of cell `id` of the filled
adjacency array (the cell's own id when the slot is masked or absent). -/
def slotAdjID (m : Mesh) (id k : Nat) : Nat :=
  (trialAdjIDs m id).getD k id

/-- `self.cellToCellDistances[id, k]` (masked slots filled with 0). -/
def slotDist (m : Mesh) (id k : Nat) : ℚ :=
  (m.cellToCellDistances.getD id []).getD k 0

/-- `self.cellNormals[id, k]` (masked slots filled with the zero vector). -/
def slotNormal (m : Mesh) (id k : Nat) : ℚ × ℚ :=
  (m.cellNormals.getD id []).getD k (0, 0)

/-- `self.cellAreas[id, k]` (masked slots filled with 0). -/
def slotArea (m : Mesh) (id k : Nat) : ℚ :=
  (m.cellAreas.getD id []).getD k 0

/-- The value of the cell sitting in neighbor slot `k` of cell `id`:
`self.value[adjIDs[k]]`. -/
def slotValue (m : Mesh) (id : Nat) (value : List ℚ) (k : Nat) : ℚ :=
  value.getD (slotAdjID m id k) 0

/-- The extension value of the cell in neighbor slot `k` of cell `id`:
`extensionVariable[adjIDs[k]]`. -/
def slotExt (m : Mesh) (id : Nat) (ext : List ℚ) (k : Nat) : ℚ :=
  ext.getD (slotAdjID m id k) 0

/-- `sign = (self.value[id] > 0) * 2 - 1`. -/
def signOfCell (value : List ℚ) (id : Nat) : ℚ :=
  if 0 < value.getD id 0 then 1 else -1

/-- `adjValues` of `_calcTrialValue`: per neighbor slot, the neighbor's
value if its evaluated flag is set, else the sentinel `1e+10`. -/
def trialAdjValues (m : Mesh) (id : Nat) (eflag : List Bool) (value : List ℚ) : List ℚ :=
  (trialAdjIDs m id).map (fun j => if eflag.getD j false then value.getD j 0 else sentinel)

/-- Insert slot index `i` into an index list already sorted by the key,
after all indices with key not exceeding `key i` (stable insertion). -/
def insertSorted (key : Nat → ℚ) (i : Nat) : List Nat → List Nat
  | [] => [i]
  | j :: js => if key j ≤ key i then j :: insertSorted key i js else i :: j :: js

/-- `Numeric.argsort(abs(adjValues))`: the slot indices sorted by
ascending absolute value (determinized to the stable order; the source's
quicksort leaves the order of equal keys unspecified). -/
def argsortAbs (xs : List ℚ) : List Nat :=
  (List.range xs.length).foldl (fun acc i => insertSorted (fun k => |xs.getD k 0|) i acc) []

/-- `indices` of `_calcTrialValue`. -/
def trialIndices (m : Mesh) (id : Nat) (eflag : List Bool) (value : List ℚ) : List Nat :=
  argsortAbs (trialAdjValues m id eflag value)

/-- `N = Numeric.sum(adjEvaluatedFlag)`: the number of neighbor slots
whose target cell is already evaluated. -/
def trialN (m : Mesh) (id : Nat) (eflag : List Bool) : Nat :=
  ((trialAdjIDs m id).map (fun j => eflag.getD j false)).count true

/-- `indices[0]` of `_calcTrialValue`. -/
def idx0 (m : Mesh) (id : Nat) (eflag : List Bool) (value : List ℚ) : Nat :=
  (trialIndices m id eflag value).getD 0 0

/-- `indices[1]` of `_calcTrialValue` (before the degeneracy adjustment). -/
def rawIdx1 (m : Mesh) (id : Nat) (eflag : List Bool) (value : List ℚ) : Nat :=
  (trialIndices m id eflag value).getD 1 0

/-- `indices[self.mesh.getDim()]` of `_calcTrialValue`. -/
def idxDim (m : Mesh) (id : Nat) (eflag : List Bool) (value : List ℚ) : Nat :=
  (trialIndices m id eflag value).getD m.dim 0

/-- The `cross` tested against 0.1 in `_calcTrialValue`: the 2-D cross
product of the normals of the two nearest-by-absolute-value neighbor
slots when the mesh is 2-D, and the literal `0.0` otherwise. -/
def branchCross (m : Mesh) (id : Nat) (eflag : List Bool) (value : List ℚ) : ℚ :=
  if m.dim = 2 then
    (slotNormal m id (idx0 m id eflag value)).1 * (slotNormal m id (rawIdx1 m id eflag value)).2
      - (slotNormal m id (idx0 m id eflag value)).2 * (slotNormal m id (rawIdx1 m id eflag value)).1
  else 0

/-- The neighbor count after the degeneracy adjustment (`N = 1` when
exactly two neighbors are evaluated but their normals are degenerate). -/
def effN (m : Mesh) (id : Nat) (eflag : List Bool) (value : List ℚ) : Nat :=
  if 1 < trialN m id eflag ∧ |branchCross m id eflag value| < 1 / 10 ∧ trialN m id eflag = 2
  then 1 else trialN m id eflag

/-- The second-neighbor slot index after the degeneracy adjustment
(`index1 = index2` when three neighbors are evaluated but the first two
normals are degenerate). -/
def effIdx1 (m : Mesh) (id : Nat) (eflag : List Bool) (value : List ℚ) : Nat :=
  if 1 < trialN m id eflag ∧ |branchCross m id eflag value| < 1 / 10 ∧ trialN m id eflag = 3
  then idxDim m id eflag value else rawIdx1 m id eflag value

/-- The one-neighbor distance estimate `v0 + sign * d0`. -/
def oneNbrVal (m : Mesh) (id : Nat) (eflag : List Bool) (value : List ℚ) : ℚ :=
  slotValue m id value (idx0 m id eflag value)
    + signOfCell value id * slotDist m id (idx0 m id eflag value)

/-- `crossProd = d0 * d1 * (n0[0]*n1[1] - n0[1]*n1[0])` for slots `i0, i1`. -/
def quadCrossProd (m : Mesh) (id i0 i1 : Nat) : ℚ :=
  slotDist m id i0 * slotDist m id i1 *
    ((slotNormal m id i0).1 * (slotNormal m id i1).2
      - (slotNormal m id i0).2 * (slotNormal m id i1).1)

/-- `dotProd = d0 * d1 * Numeric.dot(n0, n1)` for slots `i0, i1`. -/
def quadDotProd (m : Mesh) (id i0 i1 : Nat) : ℚ :=
  slotDist m id i0 * slotDist m id i1 *
    ((slotNormal m id i0).1 * (slotNormal m id i1).1
      + (slotNormal m id i0).2 * (slotNormal m id i1).2)

/-- `dsq = d0**2 + d1**2 - 2 * dotProd`. -/
def quadDsq (m : Mesh) (id i0 i1 : Nat) : ℚ :=
  slotDist m id i0 ^ 2 + slotDist m id i1 ^ 2 - 2 * quadDotProd m id i0 i1

/-- `top = -v0*(dotProd - d1**2) - v1*(dotProd - d0**2)`. -/
def quadTop (m : Mesh) (id : Nat) (value : List ℚ) (i0 i1 : Nat) : ℚ :=
  -(slotValue m id value i0) * (quadDotProd m id i0 i1 - slotDist m id i1 ^ 2)
    - slotValue m id value i1 * (quadDotProd m id i0 i1 - slotDist m id i0 ^ 2)

/-- The discriminant `crossProd**2 * (dsq - (v0 - v1)**2)` fed (after
clamping at 0) to the square root. -/
def quadDisc (m : Mesh) (id : Nat) (value : List ℚ) (i0 i1 : Nat) : ℚ :=
  quadCrossProd m id i0 i1 ^ 2 *
    (quadDsq m id i0 i1 - (slotValue m id value i0 - slotValue m id value i1) ^ 2)

/-- The two-neighbor distance solution
`dis = (top + sign * sqrt(max(disc, 0))) / dsq`. -/
def quadDis (m : Mesh) (sqrtFn : ℚ → ℚ) (id : Nat) (value : List ℚ) (i0 i1 : Nat) : ℚ :=
  (quadTop m id value i0 i1
      + signOfCell value id * sqrtFn (max (quadDisc m id value i0 i1) 0))
    / quadDsq m id i0 i1

/-- The two-neighbor extension estimate: the blend of the two neighbors'
extension values weighted by `area_i * |v_i - phi| / d_i`, where `phi` is
`dis` clamped at 0 away from the cell's sign (`max(dis, 0)` for a
positive cell, `min(dis, 0)` for a negative one). -/
def quadExt (m : Mesh) (sqrtFn : ℚ → ℚ) (id : Nat) (value ext : List ℚ) (i0 i1 : Nat) : ℚ :=
  let dis := quadDis m sqrtFn id value i0 i1
  let phi := if 0 < value.getD id 0 then max dis 0 else min dis 0
  let n0grad := slotArea m id i0 * |slotValue m id value i0 - phi| / slotDist m id i0
  let n1grad := slotArea m id i1 * |slotValue m id value i1 - phi| / slotDist m id i1
  (slotExt m id ext i0 * n0grad + slotExt m id ext i1 * n1grad) / (n0grad + n1grad)

/-- `_calcTrialValue(id, evaluatedFlag, extensionVariable)`: `none`
models the `raise` on zero evaluated neighbors; otherwise the pair
(distance estimate, extension estimate). -/
def calcTrialValue (m : Mesh) (sqrtFn : ℚ → ℚ) (id : Nat) (eflag : List Bool)
    (value ext : List ℚ) : Option (ℚ × ℚ) :=
  if effN m id eflag value = 0 then none
  else if effN m id eflag value = 1 then
    some (oneNbrVal m id eflag value, slotExt m id ext (idx0 m id eflag value))
  else
    some (quadDis m sqrtFn id value (idx0 m id eflag value) (effIdx1 m id eflag value),
          quadExt m sqrtFn id value ext (idx0 m id eflag value) (effIdx1 m id eflag value))

/-- The zero-crossing candidates of cell `c` in the interface locator:
for every unmasked neighbor slot whose value is of opposite (or zero)
sign, the interpolated crossing distance
`abs(value * dAP / (value - adjValue))` paired with the slot's normal,
in slot order. -/
def cellCandidates (m : Mesh) (value : List ℚ) (c : Nat) : List (ℚ × (ℚ × ℚ)) :=
  (List.range (m.cellToCellIDs.getD c []).length).filterMap (fun k =>
    match (m.cellToCellIDs.getD c []).getD k none with
    | none => none
    | some j =>
      if value.getD c 0 * value.getD j 0 ≤ 0 then
        some (|value.getD c 0 * slotDist m c k / (value.getD c 0 - value.getD j 0)|,
              slotNormal m c k)
      else none)

/-- Stable insertion of a candidate into a list sorted by ascending
crossing distance. -/
def insertCand (p : ℚ × (ℚ × ℚ)) : List (ℚ × (ℚ × ℚ)) → List (ℚ × (ℚ × ℚ))
  | [] => [p]
  | q :: qs => if q.1 ≤ p.1 then q :: insertCand p qs else p :: q :: qs

/-- `MA.argsort(distances, 1)` applied to the candidate list: candidates
sorted by ascending crossing distance (masked slots sort last and are
dropped; ties determinized to the stable order). -/
def sortCands (l : List (ℚ × (ℚ × ℚ))) : List (ℚ × (ℚ × ℚ)) :=
  l.foldl (fun acc p => insertCand p acc) []

/-- The signed interface value the locator assigns to cell `c`: the
`MA.where` nest of `_calcDistanceFunction` (2-D refinement using the two
nearest candidates with the 0.9 near-parallel test and the third
candidate as fallback; plain `sign * s` in 1-D; the cell's own value if
it has no opposite-sign neighbor). -/
def locatorValue (m : Mesh) (sqrtFn : ℚ → ℚ) (value : List ℚ) (c : Nat) : ℚ :=
  let sign := signOfCell value c
  match sortCands (cellCandidates m value c) with
  | [] => value.getD c 0
  | (s, ns) :: rest =>
    if m.dim = 2 then
      match rest with
      | [] => sign * s
      | (t, nt) :: rest2 =>
        if |ns.1 * nt.1 + ns.2 * nt.2| < 9 / 10 then
          sign * s * t / sqrtFn (s ^ 2 + t ^ 2)
        else
          match rest2 with
          | [] => sign * s
          | (u, _) :: _ => sign * s * u / sqrtFn (s ^ 2 + u ^ 2)
    else sign * s

/-- `masksum` of the delete-islands pre-pass: the number of unmasked
neighbor slots of `c` whose value is of opposite (or zero) sign. -/
def islandMasksum (m : Mesh) (value : List ℚ) (c : Nat) : Nat :=
  ((List.range (m.cellToCellIDs.getD c []).length).filter (fun k =>
    match (m.cellToCellIDs.getD c []).getD k none with
    | none => false
    | some j => decide (value.getD c 0 * value.getD j 0 ≤ 0))).length

/-- The delete-islands pre-pass: every cell with exactly 4 unmasked
opposite-sign neighbors and a positive value is forced to -1
(`MA.where(MA.logical_and(masksum == 4, self.value > 0), -1, self.value)`). -/
def deleteIslandsPass (m : Mesh) (value : List ℚ) : List ℚ :=
  (List.range m.numberOfCells).map (fun c =>
    if islandMasksum m value c = 4 ∧ 0 < value.getD c 0 then -1 else value.getD c 0)

/-- State of the narrow-band propagator: the field, the extension field,
the evaluated flags, the trial list, and (ghost, for specification only)
the most recently accepted cell. -/
structure FMState where
  value : List ℚ
  ext : List ℚ
  evaluated : List Bool
  trial : List Nat
  lastAccepted : Option Nat
deriving Repr, DecidableEq

/-- One step of the neighbor-relaxation inner loop: skip masked slots
(`fill_value = -1`) and already-evaluated neighbors, otherwise recompute
the neighbor's trial value and enqueue it if absent. -/
def relaxOne (m : Mesh) (sqrtFn : ℚ → ℚ) (s : FMState) (slot : Option Nat) : Option FMState :=
  match slot with
  | none => some s
  | some adjID =>
    if s.evaluated.getD adjID false then some s
    else
      match calcTrialValue m sqrtFn adjID s.evaluated s.value s.ext with
      | none => none
      | some (d, e) =>
        some { s with
                value := s.value.set adjID d
                ext := s.ext.set adjID e
                trial := if adjID ∈ s.trial then s.trial else s.trial ++ [adjID] }

/-- The relaxation loop over all neighbor slots of the accepted cell. -/
def relaxAll (m : Mesh) (sqrtFn : ℚ → ℚ) (slots : List (Option Nat)) (s : FMState) :
    Option FMState :=
  slots.foldlM (relaxOne m sqrtFn) s

/-- `trialIDs[Numeric.argmin(abs(Numeric.take(value, trialIDs)))]`: the
first trial cell of least absolute value. -/
def selectMinID (v : List ℚ) : List Nat → Nat
  | [] => 0
  | x :: xs => xs.foldl (fun best y => if |v.getD y 0| < |v.getD best 0| then y else best) x

/-- The fast-marching `while len(trialIDs)` loop: accept the trial cell
of least absolute value, relax its unevaluated neighbors, and stop when
the trial list empties or the accepted value's magnitude exceeds half
the narrow-band width.  `fuel` bounds the iteration count; each
iteration evaluates a fresh cell, so `fuel` at least the number of
unevaluated cells is enough. -/
def fmLoop (m : Mesh) (sqrtFn : ℚ → ℚ) (w : ℚ) : Nat → FMState → Option FMState
  | 0, s => some s
  | fuel + 1, s =>
    match s.trial with
    | [] => some s
    | _ :: _ =>
      let id := selectMinID s.value s.trial
      let s1 : FMState :=
        { s with
            trial := s.trial.erase id
            evaluated := s.evaluated.set id true
            lastAccepted := some id }
      match relaxAll m sqrtFn (m.cellToCellIDs.getD id []) s1 with
      | none => none
      | some s2 =>
        if w / 2 < |s2.value.getD id 0| then some s2 else fmLoop m sqrtFn w fuel s2

/-- One step of the loop spreading the extension variable across the
negative interface cells (only the extension entry is written; the
distance result is discarded into `tmp`). -/
def spreadExtStep (m : Mesh) (sqrtFn : ℚ → ℚ) (posFlag : List Bool) (value : List ℚ)
    (ext : List ℚ) (id : Nat) : Option (List ℚ) :=
  match calcTrialValue m sqrtFn id posFlag value ext with
  | none => none
  | some (_, e) => some (ext.set id e)

/-- The loop over `negativeInterfaceIDs`. -/
def spreadExt (m : Mesh) (sqrtFn : ℚ → ℚ) (posFlag : List Bool) (value : List ℚ)
    (ext : List ℚ) (negIDs : List Nat) : Option (List ℚ) :=
  negIDs.foldlM (spreadExtStep m sqrtFn posFlag value) ext

/-- One step of the trial-seeding loop: write both the distance and the
extension entry of the seeded cell. -/
def seedStep (m : Mesh) (sqrtFn : ℚ → ℚ) (eflag : List Bool) (ve : List ℚ × List ℚ)
    (id : Nat) : Option (List ℚ × List ℚ) :=
  match calcTrialValue m sqrtFn id eflag ve.1 ve.2 with
  | none => none
  | some (d, e) => some (ve.1.set id d, ve.2.set id e)

/-- `_calcDistanceFunction`: delete-islands pre-pass, interface locator,
interface extension spreading (with the temporary-value restore when an
extension variable is being carried), trial seeding, and the
fast-marching loop.  Returns the final propagator state, or `none` when
the source would raise. -/
def calcDistanceFunctionAux (m : Mesh) (sqrtFn : ℚ → ℚ) (value0 ext0 : List ℚ)
    (tmpValue : Option (List ℚ)) (w : ℚ) (deleteIslands : Bool) (fuel : Nat) :
    Option FMState :=
  let n := m.numberOfCells
  let value1 := if deleteIslands then deleteIslandsPass m value0 else value0
  let signedDist := (List.range n).map (fun c => locatorValue m sqrtFn value1 c)
  let iface : List Bool := (List.range n).map (fun c => !(cellCandidates m value1 c).isEmpty)
  let posFlag : List Bool :=
    (List.range n).map (fun c => if 0 < signedDist.getD c 0 then iface.getD c false else false)
  let negIDs := (List.range n).filter
    (fun c => decide (signedDist.getD c 0 < 0) && iface.getD c false)
  (spreadExt m sqrtFn posFlag signedDist ext0 negIDs).bind (fun ext1 =>
    let value2 := match tmpValue with
      | some tv => tv
      | none => signedDist
    let trialIDs := (List.range n).filter (fun c =>
      (!(iface.getD c false)) &&
        ((m.cellToCellIDs.getD c []).filterMap (fun o => o)).any (fun j => iface.getD j false))
    (trialIDs.foldlM (seedStep m sqrtFn iface) (value2, ext1)).bind (fun ve =>
      fmLoop m sqrtFn w fuel
        { value := ve.1, ext := ve.2, evaluated := iface, trial := trialIDs,
          lastAccepted := none }))

/-- `calcDistanceFunction(narrowBandWidth, deleteIslands)`: the public
distance computation (no extension variable is carried). -/
def calcDistanceFunction (m : Mesh) (sqrtFn : ℚ → ℚ) (value : List ℚ) (w : ℚ)
    (deleteIslands : Bool) (fuel : Nat) : Option (List ℚ) :=
  (calcDistanceFunctionAux m sqrtFn value (List.replicate m.numberOfCells 0) none w
      deleteIslands fuel).map (fun s => s.value)

/-- `extendVariable(extensionVariable, deleteIslands)`: copy the field to
`tmpValue`, run the distance computation carrying the extension variable
(which restores `tmpValue` before propagation), and return the restored
field together with the mutated extension field. -/
def extendVariable (m : Mesh) (sqrtFn : ℚ → ℚ) (value ext : List ℚ) (w : ℚ)
    (deleteIslands : Bool) (fuel : Nat) : Option (List ℚ × List ℚ) :=
  let tmpValue := value
  (calcDistanceFunctionAux m sqrtFn value ext (some tmpValue) w deleteIslands fuel).map
    (fun s => (tmpValue, s.ext))

/-- Two rationals strictly agree in sign. -/
def SameSign (a b : ℚ) : Prop := (0 < a ∧ 0 < b) ∨ (a < 0 ∧ b < 0)

/-- The doctest mesh `Grid1D(dx = .5, nx = 8)`: neighbor slots ordered
(left, right), boundary slots masked, all cell-to-cell distances `dx`. -/
def mesh1D8 : Mesh :=
  { dim := 1
    numberOfCells := 8
    cellToCellIDs :=
      [[none, some 1], [some 0, some 2], [some 1, some 3], [some 2, some 4],
       [some 3, some 5], [some 4, some 6], [some 5, some 7], [some 6, none]]
    cellToCellDistances :=
      [[0, 1/2], [1/2, 1/2], [1/2, 1/2], [1/2, 1/2],
       [1/2, 1/2], [1/2, 1/2], [1/2, 1/2], [1/2, 0]]
    cellNormals :=
      [[(0,0), (1,0)], [(-1,0), (1,0)], [(-1,0), (1,0)], [(-1,0), (1,0)],
       [(-1,0), (1,0)], [(-1,0), (1,0)], [(-1,0), (1,0)], [(-1,0), (0,0)]]
    cellAreas :=
      [[0,1],[1,1],[1,1],[1,1],[1,1],[1,1],[1,1],[1,0]] }

/-- A 5-cell 2-D mesh (unit normals, positive distances, symmetric
masked adjacency, 4 neighbor slots per cell) on which a full
distance-function pass flips the sign of cell 0: cell 0 is seeded from
two evaluated interface neighbors of very different magnitudes, the
clamped-discriminant quadratic solve returns a negative value for the
positive cell. -/
def meshC4 : Mesh :=
  { dim := 2
    numberOfCells := 5
    cellToCellIDs :=
      [[some 1, some 2, none, none],
       [some 0, some 3, none, none],
       [some 0, some 4, none, none],
       [some 1, none, none, none],
       [some 2, none, none, none]]
    cellToCellDistances :=
      [[1, 10, 0, 0], [1, 1, 0, 0], [10, 20, 0, 0], [1, 0, 0, 0], [20, 0, 0, 0]]
    cellNormals :=
      [[(1,0), (3/5,4/5), (0,0), (0,0)],
       [(-1,0), (0,1), (0,0), (0,0)],
       [(-3/5,-4/5), (0,1), (0,0), (0,0)],
       [(0,-1), (0,0), (0,0), (0,0)],
       [(0,-1), (0,0), (0,0), (0,0)]]
    cellAreas :=
      [[1,1,1,1],[1,1,1,1],[1,1,1,1],[1,1,1,1],[1,1,1,1]] }

/-- A 2-D mesh whose cell 0 has three zero-crossing candidates with
distances 3, 7/2, 4 and near-parallel first two normals, exercising the
locator's third-candidate fallback. -/
def meshC7 : Mesh :=
  { dim := 2
    numberOfCells := 4
    cellToCellIDs :=
      [[some 1, some 2, some 3, none],
       [some 0, none, none, none],
       [some 0, none, none, none],
       [some 0, none, none, none]]
    cellToCellDistances := [[6, 7, 8, 0], [6,0,0,0], [7,0,0,0], [8,0,0,0]]
    cellNormals :=
      [[(1,0), (1,0), (0,1), (0,0)],
       [(-1,0),(0,0),(0,0),(0,0)],
       [(-1,0),(0,0),(0,0),(0,0)],
       [(0,-1),(0,0),(0,0),(0,0)]]
    cellAreas := [[1,1,1,1],[1,0,0,0],[1,0,0,0],[1,0,0,0]] }

/-- The 1-D three-cell mesh of the `(-1, 1, -1)` doctest
(`Grid1D(dx = 1., nx = 3)`). -/
def meshC8 : Mesh :=
  { dim := 1
    numberOfCells := 3
    cellToCellIDs := [[none, some 1], [some 0, some 2], [some 1, none]]
    cellToCellDistances := [[0,1],[1,1],[1,0]]
    cellNormals := [[(0,0),(1,0)],[(-1,0),(1,0)],[(-1,0),(0,0)]]
    cellAreas := [[0,1],[1,1],[1,0]] }

/-- A 3-cell 2-D mesh on which a single trial-value solve hits the
clamped-discriminant branch with a negative two-neighbor solution for a
positive cell, making the clamp `phi = max(dis, 0)` differ from `dis`. -/
def meshC9 : Mesh :=
  { dim := 2
    numberOfCells := 3
    cellToCellIDs :=
      [[some 1, some 2, none, none], [some 0, none, none, none], [some 0, none, none, none]]
    cellToCellDistances := [[1, 10, 0, 0], [1,0,0,0], [10,0,0,0]]
    cellNormals :=
      [[(1,0), (3/5,4/5), (0,0), (0,0)], [(-1,0),(0,0),(0,0),(0,0)],
       [(-3/5,-4/5),(0,0),(0,0),(0,0)]]
    cellAreas := [[1,1,1,1],[1,0,0,0],[1,0,0,0]] }

/-- Boolean check that every unmasked adjacency target in the table is
below `n` (used to state decidable well-formedness of concrete meshes). -/
def adjTargetsBelow (L : List (List (Option Nat))) (n : Nat) : Bool :=
  L.all (fun r => r.all (fun o =>
    match o with
    | none => true
    | some j => decide (j < n)))

/-- Boolean check that every entry of a rational table is nonnegative. -/
def tableNonneg (L : List (List ℚ)) : Bool :=
  L.all (fun r => r.all (fun x => decide (0 ≤ x)))

/-- Boolean check that the distance of every unmasked adjacency slot is
strictly positive. -/
def validDistsPos (m : Mesh) : Bool :=
  (List.range m.cellToCellIDs.length).all (fun c =>
    (List.range (m.cellToCellIDs.getD c []).length).all (fun k =>
      match (m.cellToCellIDs.getD c []).getD k none with
      | none => true
      | some _ => decide (0 < slotDist m c k)))

/-- Boolean check that every adjacency row has at most `b` slots. -/
def rowsAtMost (L : List (List (Option Nat))) (b : Nat) : Bool :=
  L.all (fun r => decide (r.length ≤ b))

/-- A fully evaluated idle propagator state on the 8-cell mesh, used to
exercise the loop lemmas on a concrete input. -/
def idleState : FMState :=
  { value := [1, 1, 1, 1, 1, 1, 1, 1]
    ext := [0, 0, 0, 0, 0, 0, 0, 0]
    evaluated := [true, true, true, true, true, true, true, true]
    trial := []
    lastAccepted := none }

instance (a b : ℚ) : Decidable (SameSign a b) := by
  unfold SameSign
  infer_instance

theorem effN_eq_zero_iff (m : Mesh) (id : Nat) (eflag : List Bool) (value : List ℚ) :
    effN m id eflag value = 0 ↔ trialN m id eflag = 0 := by
  unfold effN
  split
  case isTrue h => simp [h.2.2]
  case isFalse h => exact Iff.rfl

/-- C1: on the uniform 1-D mesh of 8 cells with spacing 0.5 and initial
field (-1,-1,-1,-1,1,1,1,1), `calcDistanceFunction` with the default
(unbounded) narrow-band width and `deleteIslands = False` produces
exactly (-1.75,-1.25,-0.75,-0.25,0.25,0.75,1.25,1.75). -/
theorem c1_grid1d_distance_function :
    calcDistanceFunction mesh1D8 ratSqrt [-1, -1, -1, -1, 1, 1, 1, 1]
        defaultNarrowBandWidth false 8
      = some [-7/4, -5/4, -3/4, -1/4, 1/4, 3/4, 5/4, 7/4] := by decide

/-- C3: the trial value solver signals the fatal error (modelled `none`)
if and only if the queried cell has zero evaluated neighbors; with at
least one evaluated neighbor it returns a (distance, extension) pair. -/
theorem c3_solver_error_iff_no_evaluated_neighbor (m : Mesh) (sqrtFn : ℚ → ℚ) (id : Nat)
    (eflag : List Bool) (value ext : List ℚ) :
    calcTrialValue m sqrtFn id eflag value ext = none ↔ trialN m id eflag = 0 := by
  unfold calcTrialValue
  by_cases h0 : effN m id eflag value = 0
  · simp [h0, (effN_eq_zero_iff m id eflag value).mp h0]
  · have hN : ¬ trialN m id eflag = 0 :=
      fun hN => h0 ((effN_eq_zero_iff m id eflag value).mpr hN)
    by_cases h1 : effN m id eflag value = 1 <;> simp [h0, h1, hN]

/-- C4 counterexample: on the 2-D mesh `meshC4` (unit normals, positive
distances, symmetric adjacency) a full distance-function pass with
`deleteIslands = False` finalizes cell 0 at -3/89 although its
pre-propagation value is 1: the sign is not preserved. -/
theorem c4_sign_preservation_counterexample :
    calcDistanceFunction meshC4 ratSqrt [1, 1, 1, -1, -1] defaultNarrowBandWidth false 5
        = some [-3/89, 1/2, 10, -1/2, -10]
      ∧ 0 < ([(1:ℚ), 1, 1, -1, -1].getD 0 0)
      ∧ ((-3/89 : ℚ)) < 0
      ∧ ¬ SameSign (-3/89) ([(1:ℚ), 1, 1, -1, -1].getD 0 0) := by decide

/-- C7 counterexample: in the locator's near-parallel fallback with a
third candidate `u` present, the assigned value is
`sign * s * u / sqrt(s^2 + u^2)`, not `u` (and not `sign * u`): here the
sorted candidates are 3, 7/2, 4 with parallel first two normals, and the
cell receives 12/5, not 4. -/
theorem c7_locator_fallback_counterexample :
    sortCands (cellCandidates meshC7 [1, -1, -1, -1] 0)
        = [(3, (1, 0)), (7/2, (1, 0)), (4, (0, 1))]
      ∧ (9/10 : ℚ) ≤ |(1:ℚ) * 1 + 0 * 0|
      ∧ locatorValue meshC7 ratSqrt [1, -1, -1, -1] 0 = 12/5
      ∧ (12/5 : ℚ) ≠ 4
      ∧ (12/5 : ℚ) ≠ signOfCell [1, -1, -1, -1] 0 * 4 := by decide

/-- C8 counterexample: cell 1 of the 1-D field (-1, 1, -1) is positive
and every one of its unmasked neighbors has opposite sign, yet the
delete-islands pre-pass leaves it unchanged (its `masksum` is 2, not 4). -/
theorem c8_delete_islands_counterexample :
    meshC8.cellToCellIDs.getD 1 [] = [some 0, some 2]
      ∧ ([(-1:ℚ), 1, -1].getD 0 0) * ([(-1:ℚ), 1, -1].getD 1 0) < 0
      ∧ ([(-1:ℚ), 1, -1].getD 2 0) * ([(-1:ℚ), 1, -1].getD 1 0) < 0
      ∧ 0 < ([(-1:ℚ), 1, -1].getD 1 0)
      ∧ islandMasksum meshC8 [-1, 1, -1] 1 = 2
      ∧ deleteIslandsPass meshC8 [-1, 1, -1] = [-1, 1, -1]
      ∧ ([(-1:ℚ), 1, -1].getD 1 0) ≠ -1 := by decide

/-- C9 counterexample: a two-neighbor solve returning `dis = -50/89` for
a positive cell; the solver's extension blend uses the clamped
`phi = max(dis, 0) = 0` and returns 0, while the claim's weights built
from the unclamped `dis` would give a nonzero blend. -/
theorem c9_extension_weights_counterexample :
    calcTrialValue meshC9 ratSqrt 0 [false, true, true] [1, 0, 10] [0, 7, 0]
        = some (-50/89, 0)
      ∧ quadDis meshC9 ratSqrt 0 [1, 0, 10] 0 1 = -50/89
      ∧ (7 * (1 * |(0:ℚ) - (-50/89)| / 1) + 0 * (1 * |(10:ℚ) - (-50/89)| / 10))
          / (1 * |(0:ℚ) - (-50/89)| / 1 + 1 * |(10:ℚ) - (-50/89)| / 10) ≠ 0 := by decide

theorem getD_map_range {α : Type} (f : Nat → α) (n c : Nat) (h : c < n) (d : α) :
    ((List.range n).map f).getD c d = f c := by
  rw [List.getD_eq_getElem?_getD, List.getElem?_map, List.getElem?_range h]
  rfl

/-- C2: with at least two evaluated neighbors and a non-degenerate
normal pair (2-D cross product at least 0.1) the solver returns
`dis = (top + sign * sqrt(max(disc, 0))) / dsq` built from the two
nearest-by-absolute-value slots; with exactly two evaluated neighbors
and a degenerate normal pair, or with exactly one evaluated neighbor,
it returns the one-neighbor estimate `v0 + sign * d0`. -/
theorem c2_trial_value_formulas (m : Mesh) (sqrtFn : ℚ → ℚ) (id : Nat) (eflag : List Bool)
    (value ext : List ℚ) :
    (2 ≤ trialN m id eflag → 1 / 10 ≤ |branchCross m id eflag value| →
      calcTrialValue m sqrtFn id eflag value ext =
        some ((quadTop m id value (idx0 m id eflag value) (rawIdx1 m id eflag value)
                + signOfCell value id *
                  sqrtFn (max (quadDisc m id value (idx0 m id eflag value)
                    (rawIdx1 m id eflag value)) 0))
              / quadDsq m id (idx0 m id eflag value) (rawIdx1 m id eflag value),
              quadExt m sqrtFn id value ext (idx0 m id eflag value)
                (rawIdx1 m id eflag value)))
    ∧ (trialN m id eflag = 2 → |branchCross m id eflag value| < 1 / 10 →
      calcTrialValue m sqrtFn id eflag value ext =
        some (slotValue m id value (idx0 m id eflag value)
                + signOfCell value id * slotDist m id (idx0 m id eflag value),
              slotExt m id ext (idx0 m id eflag value)))
    ∧ (trialN m id eflag = 1 →
      calcTrialValue m sqrtFn id eflag value ext =
        some (slotValue m id value (idx0 m id eflag value)
                + signOfCell value id * slotDist m id (idx0 m id eflag value),
              slotExt m id ext (idx0 m id eflag value))) := by
  refine ⟨?_, ?_, ?_⟩
  · intro hN hcr
    have hcr' : ¬ |branchCross m id eflag value| < 1 / 10 := not_lt.mpr hcr
    have heN : effN m id eflag value = trialN m id eflag := by
      unfold effN
      rw [if_neg]
      rintro ⟨_, h, _⟩
      exact hcr' h
    have hi1 : effIdx1 m id eflag value = rawIdx1 m id eflag value := by
      unfold effIdx1
      rw [if_neg]
      rintro ⟨_, h, _⟩
      exact hcr' h
    unfold calcTrialValue
    rw [heN, hi1, if_neg (by omega), if_neg (by omega)]
    rfl
  · intro hN hcr
    have heN : effN m id eflag value = 1 := by
      unfold effN
      rw [if_pos ⟨by omega, hcr, hN⟩]
    unfold calcTrialValue
    rw [heN, if_neg (by omega), if_pos rfl]
    rfl
  · intro hN
    have heN : effN m id eflag value = 1 := by
      unfold effN
      rw [if_neg, hN]
      rintro ⟨h1, _, _⟩
      omega
    unfold calcTrialValue
    rw [heN, if_neg (by omega), if_pos rfl]
    rfl

theorem c2_trial_value_formulas_witness :
    calcTrialValue meshC9 ratSqrt 0 [false, true, true] [1, 0, 10] [0, 7, 0]
      = some ((quadTop meshC9 0 [1, 0, 10] (idx0 meshC9 0 [false, true, true] [1, 0, 10])
              (rawIdx1 meshC9 0 [false, true, true] [1, 0, 10])
            + signOfCell [1, 0, 10] 0 *
              ratSqrt (max (quadDisc meshC9 0 [1, 0, 10]
                (idx0 meshC9 0 [false, true, true] [1, 0, 10])
                (rawIdx1 meshC9 0 [false, true, true] [1, 0, 10])) 0))
          / quadDsq meshC9 0 (idx0 meshC9 0 [false, true, true] [1, 0, 10])
              (rawIdx1 meshC9 0 [false, true, true] [1, 0, 10]),
          quadExt meshC9 ratSqrt 0 [1, 0, 10] [0, 7, 0]
            (idx0 meshC9 0 [false, true, true] [1, 0, 10])
            (rawIdx1 meshC9 0 [false, true, true] [1, 0, 10])) :=
  (c2_trial_value_formulas meshC9 ratSqrt 0 [false, true, true] [1, 0, 10] [0, 7, 0]).1
    (by decide) (by decide)

/-- C10: on a mesh whose dimension is not 2, for a cell with at most two
neighbor slots (as every 1-D cell has) and at least one evaluated
neighbor, the solver always returns the one-neighbor estimate
`v0 + sign * d0` with extension value `e0`, because `cross` is set to
the literal 0.0, below the 0.1 threshold. -/
theorem c10_one_neighbor_only_in_1d (m : Mesh) (sqrtFn : ℚ → ℚ) (id : Nat)
    (eflag : List Bool) (value ext : List ℚ) (hdim : m.dim ≠ 2)
    (hrow : (m.cellToCellIDs.getD id []).length ≤ 2) (hN : 1 ≤ trialN m id eflag) :
    calcTrialValue m sqrtFn id eflag value ext =
      some (slotValue m id value (idx0 m id eflag value)
              + signOfCell value id * slotDist m id (idx0 m id eflag value),
            slotExt m id ext (idx0 m id eflag value)) := by
  have hcr : branchCross m id eflag value = 0 := by
    unfold branchCross
    rw [if_neg hdim]
  have hNle : trialN m id eflag ≤ 2 := by
    unfold trialN
    calc ((trialAdjIDs m id).map (fun j => eflag.getD j false)).count true
        ≤ ((trialAdjIDs m id).map (fun j => eflag.getD j false)).length :=
          List.count_le_length _ _
      _ = (trialAdjIDs m id).length := List.length_map _ _
      _ = (m.cellToCellIDs.getD id []).length := List.length_map _ _
      _ ≤ 2 := hrow
  rcases Nat.lt_or_ge (trialN m id eflag) 2 with h2 | h2
  · have h1 : trialN m id eflag = 1 := by omega
    have heN : effN m id eflag value = 1 := by
      unfold effN
      rw [if_neg, h1]
      rintro ⟨hgt, _, _⟩
      omega
    unfold calcTrialValue
    rw [heN, if_neg (by omega), if_pos rfl]
    rfl
  · have h2' : trialN m id eflag = 2 := by omega
    have heN : effN m id eflag value = 1 := by
      unfold effN
      rw [if_pos ⟨by omega, by rw [hcr]; norm_num, h2'⟩]
    unfold calcTrialValue
    rw [heN, if_neg (by omega), if_pos rfl]
    rfl

theorem c10_one_neighbor_only_in_1d_witness :
    calcTrialValue mesh1D8 ratSqrt 2 [false, false, false, true, true, false, false, false]
        [-1, -1, -1, -1/4, 1/4, 1, 1, 1] [0, 0, 0, 0, 0, 0, 0, 0]
      = some (slotValue mesh1D8 2 [-1, -1, -1, -1/4, 1/4, 1, 1, 1]
              (idx0 mesh1D8 2 [false, false, false, true, true, false, false, false]
                [-1, -1, -1, -1/4, 1/4, 1, 1, 1])
            + signOfCell [-1, -1, -1, -1/4, 1/4, 1, 1, 1] 2 *
              slotDist mesh1D8 2
                (idx0 mesh1D8 2 [false, false, false, true, true, false, false, false]
                  [-1, -1, -1, -1/4, 1/4, 1, 1, 1]),
          slotExt mesh1D8 2 [0, 0, 0, 0, 0, 0, 0, 0]
            (idx0 mesh1D8 2 [false, false, false, true, true, false, false, false]
              [-1, -1, -1, -1/4, 1/4, 1, 1, 1])) :=
  c10_one_neighbor_only_in_1d mesh1D8 ratSqrt 2
    [false, false, false, true, true, false, false, false]
    [-1, -1, -1, -1/4, 1/4, 1, 1, 1] [0, 0, 0, 0, 0, 0, 0, 0]
    (by decide) (by decide) (by decide)

/-- C7 (amended): for a 2-D mesh, a cell with one candidate gets
`sign * s`; with two or more candidates and `|ns . nt| < 0.9` it gets
`sign * s * t / sqrt(s^2 + t^2)`; with exactly two candidates and
near-parallel normals it falls back to `sign * s`; with a third
candidate and near-parallel normals it gets the combination
`sign * s * u / sqrt(s^2 + u^2)`. -/
theorem c7_locator_two_candidate_rule (m : Mesh) (sqrtFn : ℚ → ℚ) (value : List ℚ)
    (c : Nat) (hdim : m.dim = 2) :
    (∀ s ns, sortCands (cellCandidates m value c) = [(s, ns)] →
      locatorValue m sqrtFn value c = signOfCell value c * s)
    ∧ (∀ s ns t nt rest, sortCands (cellCandidates m value c) = (s, ns) :: (t, nt) :: rest →
      |ns.1 * nt.1 + ns.2 * nt.2| < 9 / 10 →
      locatorValue m sqrtFn value c = signOfCell value c * s * t / sqrtFn (s ^ 2 + t ^ 2))
    ∧ (∀ s ns t nt, sortCands (cellCandidates m value c) = [(s, ns), (t, nt)] →
      9 / 10 ≤ |ns.1 * nt.1 + ns.2 * nt.2| →
      locatorValue m sqrtFn value c = signOfCell value c * s)
    ∧ (∀ s ns t nt u nu rest,
      sortCands (cellCandidates m value c) = (s, ns) :: (t, nt) :: (u, nu) :: rest →
      9 / 10 ≤ |ns.1 * nt.1 + ns.2 * nt.2| →
      locatorValue m sqrtFn value c = signOfCell value c * s * u / sqrtFn (s ^ 2 + u ^ 2)) := by
  refine ⟨?_, ?_, ?_, ?_⟩
  · intro s ns hsort
    unfold locatorValue
    rw [hsort]
    dsimp only
    rw [if_pos hdim]
  · intro s ns t nt rest hsort hdot
    unfold locatorValue
    rw [hsort]
    dsimp only
    rw [if_pos hdim, if_pos hdot]
  · intro s ns t nt hsort hdot
    unfold locatorValue
    rw [hsort]
    dsimp only
    rw [if_pos hdim, if_neg (not_lt.mpr hdot)]
  · intro s ns t nt u nu rest hsort hdot
    unfold locatorValue
    rw [hsort]
    dsimp only
    rw [if_pos hdim, if_neg (not_lt.mpr hdot)]

theorem c7_locator_two_candidate_rule_witness :
    locatorValue meshC7 ratSqrt [1, -1, -1, -1] 0
      = signOfCell [1, -1, -1, -1] 0 * 3 * 4 / ratSqrt (3 ^ 2 + 4 ^ 2) :=
  (c7_locator_two_candidate_rule meshC7 ratSqrt [1, -1, -1, -1] 0 (by decide)).2.2.2
    3 (1, 0) (7/2) (1, 0) 4 (0, 1) [] (by decide) (by decide)

/-- C8 (amended): the delete-islands pre-pass replaces the value of a
cell with -1 exactly when its `masksum` (the number of unmasked
opposite-sign neighbor slots) is exactly 4 and its own value is
positive; every other cell keeps its value. -/
theorem c8_delete_islands_rule (m : Mesh) (value : List ℚ) (c : Nat)
    (hc : c < m.numberOfCells) :
    (deleteIslandsPass m value).getD c 0
      = if islandMasksum m value c = 4 ∧ 0 < value.getD c 0 then -1
        else value.getD c 0 := by
  unfold deleteIslandsPass
  rw [getD_map_range _ _ _ hc]

theorem c8_delete_islands_rule_witness :
    (deleteIslandsPass meshC8 [-1, 1, -1]).getD 1 0
      = if islandMasksum meshC8 [-1, 1, -1] 1 = 4 ∧ 0 < ([(-1:ℚ), 1, -1].getD 1 0) then -1
        else [(-1:ℚ), 1, -1].getD 1 0 :=
  c8_delete_islands_rule meshC8 [-1, 1, -1] 1 (by decide)

/-- C9 (amended): with two contributing neighbors the solver's extension
estimate is `(e0*w0 + e1*w1) / (w0 + w1)` with weights
`w_i = area_i * |v_i - phi| / d_i`, where `phi` is the two-neighbor
solution `dis` clamped at 0 toward the cell's sign (`max(dis, 0)` for a
positive cell, `min(dis, 0)` for a negative one), not the unclamped
`dis`; with one contributing neighbor the extension estimate is `e0`. -/
theorem c9_extension_weights_clamped (m : Mesh) (sqrtFn : ℚ → ℚ) (id : Nat)
    (eflag : List Bool) (value ext : List ℚ) :
    (∀ i0 i1 phi, i0 = idx0 m id eflag value → i1 = effIdx1 m id eflag value →
      phi = (if 0 < value.getD id 0 then max (quadDis m sqrtFn id value i0 i1) 0
             else min (quadDis m sqrtFn id value i0 i1) 0) →
      2 ≤ effN m id eflag value →
      calcTrialValue m sqrtFn id eflag value ext =
        some (quadDis m sqrtFn id value i0 i1,
          (slotExt m id ext i0 *
              (slotArea m id i0 * |slotValue m id value i0 - phi| / slotDist m id i0)
            + slotExt m id ext i1 *
              (slotArea m id i1 * |slotValue m id value i1 - phi| / slotDist m id i1))
          / (slotArea m id i0 * |slotValue m id value i0 - phi| / slotDist m id i0
            + slotArea m id i1 * |slotValue m id value i1 - phi| / slotDist m id i1)))
    ∧ (effN m id eflag value = 1 →
      calcTrialValue m sqrtFn id eflag value ext =
        some (slotValue m id value (idx0 m id eflag value)
                + signOfCell value id * slotDist m id (idx0 m id eflag value),
              slotExt m id ext (idx0 m id eflag value))) := by
  constructor
  · intro i0 i1 phi hi0 hi1 hphi h2
    subst hi0
    subst hi1
    subst hphi
    unfold calcTrialValue
    rw [if_neg (by omega), if_neg (by omega)]
    rfl
  · intro h1
    unfold calcTrialValue
    rw [h1, if_neg (by omega), if_pos rfl]
    rfl

theorem c9_extension_weights_clamped_witness :
    calcTrialValue meshC9 ratSqrt 0 [false, true, true] [1, 0, 10] [0, 7, 0]
      = some (quadDis meshC9 ratSqrt 0 [1, 0, 10] 0 1,
          (slotExt meshC9 0 [0, 7, 0] 0 *
              (slotArea meshC9 0 0 * |slotValue meshC9 0 [1, 0, 10] 0
                - (if 0 < ([(1:ℚ), 0, 10].getD 0 0) then max (quadDis meshC9 ratSqrt 0 [1, 0, 10] 0 1) 0
                   else min (quadDis meshC9 ratSqrt 0 [1, 0, 10] 0 1) 0)| / slotDist meshC9 0 0)
            + slotExt meshC9 0 [0, 7, 0] 1 *
              (slotArea meshC9 0 1 * |slotValue meshC9 0 [1, 0, 10] 1
                - (if 0 < ([(1:ℚ), 0, 10].getD 0 0) then max (quadDis meshC9 ratSqrt 0 [1, 0, 10] 0 1) 0
                   else min (quadDis meshC9 ratSqrt 0 [1, 0, 10] 0 1) 0)| / slotDist meshC9 0 1))
          / (slotArea meshC9 0 0 * |slotValue meshC9 0 [1, 0, 10] 0
                - (if 0 < ([(1:ℚ), 0, 10].getD 0 0) then max (quadDis meshC9 ratSqrt 0 [1, 0, 10] 0 1) 0
                   else min (quadDis meshC9 ratSqrt 0 [1, 0, 10] 0 1) 0)| / slotDist meshC9 0 0
            + slotArea meshC9 0 1 * |slotValue meshC9 0 [1, 0, 10] 1
                - (if 0 < ([(1:ℚ), 0, 10].getD 0 0) then max (quadDis meshC9 ratSqrt 0 [1, 0, 10] 0 1) 0
                   else min (quadDis meshC9 ratSqrt 0 [1, 0, 10] 0 1) 0)| / slotDist meshC9 0 1)) :=
  (c9_extension_weights_clamped meshC9 ratSqrt 0 [false, true, true] [1, 0, 10] [0, 7, 0]).1
    0 1 _ (by decide) (by decide) rfl (by decide)

/-- C5: `extendVariable` returns the distance field exactly equal,
element for element, to its pre-call value; only the extension field
carries the result of the computation. -/
theorem c5_extend_variable_restores_field (m : Mesh) (sqrtFn : ℚ → ℚ) (value ext : List ℚ)
    (w : ℚ) (di : Bool) (fuel : Nat) (p : List ℚ × List ℚ)
    (h : extendVariable m sqrtFn value ext w di fuel = some p) :
    p.1 = value := by
  unfold extendVariable at h
  obtain ⟨s, _, hp⟩ := Option.map_eq_some'.mp h
  rw [← hp]

theorem c5_extend_variable_restores_field_witness :
    ((([-1, -1, -1, -1, 1, 1, 1, 1] : List ℚ), ([4, 4, 4, 4, 4, 4, 4, 4] : List ℚ)).1
        = ([-1, -1, -1, -1, 1, 1, 1, 1] : List ℚ)) :=
  c5_extend_variable_restores_field mesh1D8 ratSqrt [-1, -1, -1, -1, 1, 1, 1, 1]
    [0, 0, 0, 2, 4, 0, 0, 0] defaultNarrowBandWidth false 8
    ([-1, -1, -1, -1, 1, 1, 1, 1], [4, 4, 4, 4, 4, 4, 4, 4]) (by decide)

theorem getD_mem {α : Type} (l : List α) (k : Nat) (d : α) (hk : k < l.length) :
    l.getD k d ∈ l := by
  rw [List.getD_eq_getElem?_getD, List.getElem?_eq_getElem hk]
  exact List.getElem_mem hk

theorem getD_set_ne {α : Type} (l : List α) (i c : Nat) (hne : c ≠ i) (a d : α) :
    (l.set i a).getD c d = l.getD c d := by
  rw [List.getD_eq_getElem?_getD, List.getD_eq_getElem?_getD,
    List.getElem?_set_ne (Ne.symm hne)]

theorem getD_set_self {α : Type} (l : List α) (i : Nat) (hi : i < l.length) (a d : α) :
    (l.set i a).getD i d = a := by
  rw [List.getD_eq_getElem?_getD, List.getElem?_set_self hi]
  rfl

theorem set_changed {α : Type} [DecidableEq α] (l : List α) (i c : Nat) (a d : α)
    (h : (l.set i a).getD c d ≠ l.getD c d) : c = i := by
  by_contra hne
  exact h (getD_set_ne l i c hne a d)

theorem count_false_set_true (l : List Bool) (i : Nat) (hi : i < l.length)
    (hf : l.getD i false = false) :
    (l.set i true).count false + 1 = l.count false := by
  induction l generalizing i with
  | nil => simp at hi
  | cons b bs ih =>
    cases i with
    | zero =>
      rw [List.getD_cons_zero] at hf
      subst hf
      simp [List.set_cons_zero, List.count_cons]
    | succ n =>
      have hn : n < bs.length := by simpa using hi
      have hf' : bs.getD n false = false := by simpa [List.getD_cons_succ] using hf
      have := ih n hn hf'
      cases b <;> simp [List.set_cons_succ, List.count_cons] <;> omega

theorem foldl_min_mem (v : List ℚ) (xs : List Nat) (b : Nat) :
    xs.foldl (fun best y => if |v.getD y 0| < |v.getD best 0| then y else best) b = b
      ∨ xs.foldl (fun best y => if |v.getD y 0| < |v.getD best 0| then y else best) b ∈ xs := by
  induction xs generalizing b with
  | nil => left; rfl
  | cons x xs ih =>
    rw [List.foldl_cons]
    rcases ih (if |v.getD x 0| < |v.getD b 0| then x else b) with h | h
    · rw [h]
      by_cases hc : |v.getD x 0| < |v.getD b 0|
      · rw [if_pos hc]
        right
        exact List.mem_cons_self x xs
      · rw [if_neg hc]
        left
        rfl
    · right
      exact List.mem_cons_of_mem x h

theorem selectMinID_mem (v : List ℚ) (l : List Nat) (h : l ≠ []) : selectMinID v l ∈ l := by
  cases l with
  | nil => exact absurd rfl h
  | cons x xs =>
    unfold selectMinID
    dsimp only
    rcases foldl_min_mem v xs x with h1 | h1
    · rw [h1]
      exact List.mem_cons_self x xs
    · exact List.mem_cons_of_mem x h1

theorem adjTargetsBelow_spec (L : List (List (Option Nat))) (n : Nat)
    (h : adjTargetsBelow L n = true) :
    ∀ i : Nat, ∀ o ∈ L.getD i [], ∀ j : Nat, o = some j → j < n := by
  intro i o ho j hj
  subst hj
  rcases Nat.lt_or_ge i L.length with hi | hi
  · have hrow : L.getD i [] ∈ L := getD_mem L i [] hi
    have h1 := (List.all_eq_true.mp h) _ hrow
    have h2 := (List.all_eq_true.mp h1) _ ho
    simpa using h2
  · rw [List.getD_eq_default _ _ hi] at ho
    simp at ho

theorem tableNonneg_spec (L : List (List ℚ)) (h : tableNonneg L = true) (c k : Nat) :
    0 ≤ (L.getD c []).getD k 0 := by
  rcases Nat.lt_or_ge c L.length with hc | hc
  · have hrow : L.getD c [] ∈ L := getD_mem L c [] hc
    have h1 := (List.all_eq_true.mp h) _ hrow
    rcases Nat.lt_or_ge k (L.getD c []).length with hk | hk
    · have hx : (L.getD c []).getD k 0 ∈ L.getD c [] := getD_mem _ k 0 hk
      have h2 := (List.all_eq_true.mp h1) _ hx
      simpa using h2
    · rw [List.getD_eq_default _ _ hk]
  · rw [List.getD_eq_default _ _ hc, List.getD_nil]

theorem validDistsPos_spec (m : Mesh) (h : validDistsPos m = true) (c k : Nat) (j : Nat)
    (hs : (m.cellToCellIDs.getD c []).getD k none = some j) : 0 < slotDist m c k := by
  rcases Nat.lt_or_ge c m.cellToCellIDs.length with hc | hc
  · rcases Nat.lt_or_ge k (m.cellToCellIDs.getD c []).length with hk | hk
    · have h1 := (List.all_eq_true.mp h) c (List.mem_range.mpr hc)
      have h2 := (List.all_eq_true.mp h1) k (List.mem_range.mpr hk)
      rw [hs] at h2
      simpa using h2
    · rw [List.getD_eq_default _ _ hk] at hs
      simp at hs
  · rw [List.getD_eq_default _ _ hc] at hs
    rw [List.getD_nil] at hs
    simp at hs

theorem rowsAtMost_spec (L : List (List (Option Nat))) (b : Nat)
    (h : rowsAtMost L b = true) (c : Nat) : (L.getD c []).length ≤ b := by
  rcases Nat.lt_or_ge c L.length with hc | hc
  · have hrow : L.getD c [] ∈ L := getD_mem L c [] hc
    have h1 := (List.all_eq_true.mp h) _ hrow
    simpa using h1
  · rw [List.getD_eq_default _ _ hc]
    simp

theorem relaxOne_facts (m : Mesh) (sqrtFn : ℚ → ℚ) (s : FMState) (slot : Option Nat)
    (s2 : FMState) (n : Nat) (hb : ∀ j : Nat, slot = some j → j < n)
    (h : relaxOne m sqrtFn s slot = some s2) :
    s2.evaluated = s.evaluated
    ∧ s2.lastAccepted = s.lastAccepted
    ∧ s2.ext.length = s.ext.length
    ∧ s2.value.length = s.value.length
    ∧ (∀ c, c ∈ s.trial → c ∈ s2.trial)
    ∧ (∀ c, c ∈ s2.trial → c ∈ s.trial ∨ (s.evaluated.getD c false = false ∧ c < n))
    ∧ (∀ c : Nat, s2.value.getD c 0 ≠ s.value.getD c 0 → c ∈ s2.trial)
    ∧ (s.trial.Nodup → s2.trial.Nodup) := by
  cases slot with
  | none =>
    unfold relaxOne at h
    have hs : s = s2 := by injection h
    subst hs
    exact ⟨rfl, rfl, rfl, rfl, fun c hc => hc, fun c hc => Or.inl hc,
      fun c hc => absurd rfl hc, fun hnd => hnd⟩
  | some adjID =>
    unfold relaxOne at h
    dsimp only at h
    by_cases he : s.evaluated.getD adjID false = true
    · rw [if_pos he] at h
      have hs : s = s2 := by injection h
      subst hs
      exact ⟨rfl, rfl, rfl, rfl, fun c hc => hc, fun c hc => Or.inl hc,
        fun c hc => absurd rfl hc, fun hnd => hnd⟩
    · rw [if_neg he] at h
      have hef : s.evaluated.getD adjID false = false := by
        revert he
        cases s.evaluated.getD adjID false <;> simp
      cases hct : calcTrialValue m sqrtFn adjID s.evaluated s.value s.ext with
      | none =>
        rw [hct] at h
        simp at h
      | some de =>
        obtain ⟨d, e⟩ := de
        rw [hct] at h
        have hs2 : s2 = { s with
            value := s.value.set adjID d
            ext := s.ext.set adjID e
            trial := if adjID ∈ s.trial then s.trial else s.trial ++ [adjID] } := by
          injection h with h'
          exact h'.symm
        subst hs2
        refine ⟨rfl, rfl, by simp [List.length_set], by simp [List.length_set], ?_, ?_, ?_, ?_⟩
        · intro c hc
          by_cases hmem : adjID ∈ s.trial
          · simpa [hmem] using hc
          · simp only [if_neg hmem, List.mem_append]
            exact Or.inl hc
        · intro c hc
          by_cases hmem : adjID ∈ s.trial
          · exact Or.inl (by simpa [hmem] using hc)
          · simp only [if_neg hmem, List.mem_append, List.mem_singleton] at hc
            rcases hc with hc | hc
            · exact Or.inl hc
            · subst hc
              exact Or.inr ⟨hef, hb c rfl⟩
        · intro c hc
          have hceq : c = adjID := set_changed s.value adjID c d 0 hc
          subst hceq
          by_cases hmem : c ∈ s.trial
          · simp [hmem]
          · simp [hmem]
        · intro hnd
          by_cases hmem : adjID ∈ s.trial
          · simpa [hmem] using hnd
          · simp only [if_neg hmem]
            exact List.Nodup.append hnd (List.nodup_singleton adjID)
              (by simpa using hmem)

theorem relaxAll_facts (m : Mesh) (sqrtFn : ℚ → ℚ) (slots : List (Option Nat))
    (s s2 : FMState) (n : Nat)
    (hb : ∀ o ∈ slots, ∀ j : Nat, o = some j → j < n)
    (h : relaxAll m sqrtFn slots s = some s2) :
    s2.evaluated = s.evaluated
    ∧ s2.lastAccepted = s.lastAccepted
    ∧ s2.ext.length = s.ext.length
    ∧ s2.value.length = s.value.length
    ∧ (∀ c, c ∈ s.trial → c ∈ s2.trial)
    ∧ (∀ c, c ∈ s2.trial → c ∈ s.trial ∨ (s.evaluated.getD c false = false ∧ c < n))
    ∧ (∀ c : Nat, s2.value.getD c 0 ≠ s.value.getD c 0 → c ∈ s2.trial)
    ∧ (s.trial.Nodup → s2.trial.Nodup) := by
  induction slots generalizing s with
  | nil =>
    unfold relaxAll at h
    simp only [List.foldlM] at h
    have hs : s = s2 := by injection h
    subst hs
    exact ⟨rfl, rfl, rfl, rfl, fun c hc => hc, fun c hc => Or.inl hc,
      fun c hc => absurd rfl hc, fun hnd => hnd⟩
  | cons o os ih =>
    unfold relaxAll at h
    simp only [List.foldlM] at h
    rcases Option.bind_eq_some.mp h with ⟨s1, h1, h2⟩
    have f1 := relaxOne_facts m sqrtFn s o s1 n
      (fun j hj => hb o (List.mem_cons_self o os) j hj) h1
    have h2' : relaxAll m sqrtFn os s1 = some s2 := h2
    have f2 := ih s1 (fun o' ho' => hb o' (List.mem_cons_of_mem o ho')) h2'
    refine ⟨f2.1.trans f1.1, f2.2.1.trans f1.2.1, f2.2.2.1.trans f1.2.2.1,
      f2.2.2.2.1.trans f1.2.2.2.1, ?_, ?_, ?_, ?_⟩
    · intro c hc
      exact f2.2.2.2.2.1 c (f1.2.2.2.2.1 c hc)
    · intro c hc
      rcases f2.2.2.2.2.2.1 c hc with hc1 | hc1
      · rcases f1.2.2.2.2.2.1 c hc1 with hc2 | hc2
        · exact Or.inl hc2
        · exact Or.inr hc2
      · rw [f1.1] at hc1
        exact Or.inr hc1
    · intro c hc
      by_cases hmid : s2.value.getD c 0 = s1.value.getD c 0
      · have : s1.value.getD c 0 ≠ s.value.getD c 0 := by
          rw [← hmid]
          exact hc
        exact f2.2.2.2.2.1 c (f1.2.2.2.2.2.2.1 c this)
      · exact f2.2.2.2.2.2.2.1 c hmid
    · intro hnd
      exact f2.2.2.2.2.2.2.2 (f1.2.2.2.2.2.2.2 hnd)

theorem fmLoop_master (m : Mesh) (sqrtFn : ℚ → ℚ) (w : ℚ) : ∀ (fuel : Nat) (s s' : FMState),
    fmLoop m sqrtFn w fuel s = some s' →
    s.trial.Nodup →
    (∀ c ∈ s.trial, s.evaluated.getD c false = false) →
    (∀ c ∈ s.trial, c < s.evaluated.length) →
    (∀ i : Nat, ∀ o ∈ m.cellToCellIDs.getD i [], ∀ j : Nat, o = some j →
      j < s.evaluated.length) →
    ((∀ c ∈ s.trial, c ∈ s'.trial ∨ s'.evaluated.getD c false = true)
    ∧ (∀ c : Nat, s.evaluated.getD c false = true → s'.evaluated.getD c false = true)
    ∧ s'.evaluated.length = s.evaluated.length
    ∧ (∀ c : Nat, s'.value.getD c 0 ≠ s.value.getD c 0 →
        c ∈ s'.trial ∨ (s'.evaluated.getD c false = true ∧ s.evaluated.getD c false = false))
    ∧ (s.evaluated.count false ≤ fuel →
        s'.trial = [] ∨ ∃ id, s'.lastAccepted = some id ∧ w / 2 < |s'.value.getD id 0|)) := by
  intro fuel
  induction fuel with
  | zero =>
    intro s s' h hnd htu htl hadj
    have hs : s = s' := by
      unfold fmLoop at h
      injection h
    subst hs
    refine ⟨fun c hc => Or.inl hc, fun c hc => hc, rfl, fun c hc => absurd rfl hc, ?_⟩
    intro hcount
    cases htr : s.trial with
    | nil =>
      left
      simp [htr]
    | cons x xs =>
      exfalso
      have hx : x ∈ s.trial := by
        rw [htr]
        exact List.mem_cons_self x xs
      have hcc := count_false_set_true s.evaluated x (htl x hx) (htu x hx)
      omega
  | succ fuel ih =>
    intro s s' h hnd htu htl hadj
    cases htr : s.trial with
    | nil =>
      unfold fmLoop at h
      rw [htr] at h
      have hs : s = s' := by injection h
      subst hs
      refine ⟨fun c hc => absurd hc (List.not_mem_nil c), fun c hc => hc, rfl,
        fun c hc => absurd rfl hc, ?_⟩
      intro _
      left
      simp [htr]
    | cons x xs =>
      unfold fmLoop at h
      rw [htr] at h
      dsimp only at h
      have hnd' : (x :: xs).Nodup := htr ▸ hnd
      have hmem : selectMinID s.value (x :: xs) ∈ s.trial := by
        rw [htr]
        exact selectMinID_mem s.value (x :: xs) (by simp)
      have hidlt : selectMinID s.value (x :: xs) < s.evaluated.length := htl _ hmem
      have hidf : s.evaluated.getD (selectMinID s.value (x :: xs)) false = false := htu _ hmem
      cases hopt : relaxAll m sqrtFn
          (m.cellToCellIDs.getD (selectMinID s.value (x :: xs)) [])
          { value := s.value, ext := s.ext,
            evaluated := s.evaluated.set (selectMinID s.value (x :: xs)) true,
            trial := (x :: xs).erase (selectMinID s.value (x :: xs)),
            lastAccepted := some (selectMinID s.value (x :: xs)) } with
        | none =>
          rw [hopt] at h
          exact Option.noConfusion h
        | some s2 =>
          rw [hopt] at h
          dsimp only at h
          have hb' : ∀ o ∈ m.cellToCellIDs.getD (selectMinID s.value (x :: xs)) [],
              ∀ j : Nat, o = some j → j < s.evaluated.length :=
            fun o ho j hj => hadj _ o ho j hj
          obtain ⟨f1, f2, f3, f4, f5, f6, f7, f8⟩ := relaxAll_facts m sqrtFn _ _ s2
            (s.evaluated.length) hb' hopt
          dsimp only at f1 f2 f3 f4 f5 f6 f7 f8
          have hs2eval : s2.evaluated = s.evaluated.set (selectMinID s.value (x :: xs)) true :=
            f1
          have hs2len : s2.evaluated.length = s.evaluated.length := by
            rw [hs2eval, List.length_set]
          have hs2idtrue : s2.evaluated.getD (selectMinID s.value (x :: xs)) false = true := by
            rw [hs2eval]
            exact getD_set_self s.evaluated _ hidlt true false
          have huneval : ∀ c : Nat, s2.evaluated.getD c false = false →
              s.evaluated.getD c false = false := by
            intro c hc
            by_cases hceq : c = selectMinID s.value (x :: xs)
            · rw [hceq] at hc
              rw [hs2idtrue] at hc
              exact Bool.noConfusion hc
            · rw [hs2eval, getD_set_ne _ _ _ hceq] at hc
              exact hc
          have htu2 : ∀ c ∈ s2.trial, s2.evaluated.getD c false = false := by
            intro c hc
            rcases f6 c hc with hc1 | hc1
            · have hcx : c ≠ selectMinID s.value (x :: xs) ∧ c ∈ x :: xs :=
                (List.Nodup.mem_erase_iff hnd').mp hc1
              rw [hs2eval, getD_set_ne _ _ _ hcx.1]
              exact htu c (htr ▸ hcx.2)
            · rw [f1]
              exact hc1.1
          have htl2 : ∀ c ∈ s2.trial, c < s2.evaluated.length := by
            intro c hc
            rw [hs2len]
            rcases f6 c hc with hc1 | hc1
            · have hcx := (List.Nodup.mem_erase_iff hnd').mp hc1
              exact htl c (htr ▸ hcx.2)
            · exact hc1.2
          have hnd2 : s2.trial.Nodup := f8 (List.Nodup.erase _ hnd')
          have hadj2 : ∀ i : Nat, ∀ o ∈ m.cellToCellIDs.getD i [], ∀ j : Nat, o = some j →
              j < s2.evaluated.length := by
            intro i o ho j hj
            rw [hs2len]
            exact hadj i o ho j hj
          have hmono2 : ∀ c : Nat, s.evaluated.getD c false = true →
              s2.evaluated.getD c false = true := by
            intro c hc
            have hcne : c ≠ selectMinID s.value (x :: xs) := by
              intro hceq
              rw [hceq, hidf] at hc
              exact Bool.noConfusion hc
            rw [hs2eval, getD_set_ne _ _ _ hcne]
            exact hc
          have htrial2 : ∀ c ∈ x :: xs, c ∈ s2.trial ∨
              s2.evaluated.getD c false = true := by
            intro c hc
            by_cases hceq : c = selectMinID s.value (x :: xs)
            · right
              rw [hceq]
              exact hs2idtrue
            · left
              refine f5 c ?_
              exact (List.Nodup.mem_erase_iff hnd').mpr ⟨hceq, hc⟩
          have hframe2 : ∀ c : Nat, s2.value.getD c 0 ≠ s.value.getD c 0 → c ∈ s2.trial :=
            f7
          by_cases hbr : w / 2 < |s2.value.getD (selectMinID s.value (x :: xs)) 0|
          · rw [if_pos hbr] at h
            have hs : s2 = s' := by injection h
            subst hs
            refine ⟨htrial2, hmono2, hs2len, ?_, ?_⟩
            · intro c hc
              exact Or.inl (hframe2 c hc)
            · intro _
              exact Or.inr ⟨selectMinID s.value (x :: xs), f2, hbr⟩
          · rw [if_neg hbr] at h
            have hcount2 : s.evaluated.count false ≤ fuel + 1 →
                s2.evaluated.count false ≤ fuel := by
              intro hc
              have hcc := count_false_set_true s.evaluated _ hidlt hidf
              rw [hs2eval]
              omega
            obtain ⟨g1, g2, g3, g4, g5⟩ := ih s2 s' h hnd2 htu2 htl2 hadj2
            refine ⟨?_, ?_, ?_, ?_, ?_⟩
            · intro c hc
              rcases htrial2 c hc with hc1 | hc1
              · exact g1 c hc1
              · exact Or.inr (g2 c hc1)
            · intro c hc
              exact g2 c (hmono2 c hc)
            · rw [g3, hs2len]
            · intro c hc
              by_cases hmid : s'.value.getD c 0 = s2.value.getD c 0
              · have hch : s2.value.getD c 0 ≠ s.value.getD c 0 := by
                  rw [← hmid]
                  exact hc
                have hct := hframe2 c hch
                rcases g1 c hct with hc1 | hc1
                · exact Or.inl hc1
                · exact Or.inr ⟨hc1, huneval c (htu2 c hct)⟩
              · rcases g4 c hmid with hc1 | hc1
                · exact Or.inl hc1
                · exact Or.inr ⟨hc1.1, huneval c hc1.2⟩
            · intro hc
              exact g5 (hcount2 hc)

/-- C6: the propagation loop stops exactly when the trial set is empty
(it returns the state unchanged) or when the most recently accepted
cell's absolute value exceeds half the narrow-band width; and every cell
whose value differs after the loop was either given a trial value (it is
still in the trial set) or accepted (newly evaluated) during the loop —
all untouched cells keep their pre-loop values. -/
theorem c6_loop_termination_and_frame (m : Mesh) (sqrtFn : ℚ → ℚ) (w : ℚ) (fuel : Nat)
    (s s' : FMState)
    (hnd : s.trial.Nodup)
    (htu : ∀ c ∈ s.trial, s.evaluated.getD c false = false)
    (htl : ∀ c ∈ s.trial, c < s.evaluated.length)
    (hadj : adjTargetsBelow m.cellToCellIDs s.evaluated.length = true)
    (hfuel : s.evaluated.count false ≤ fuel)
    (h : fmLoop m sqrtFn w fuel s = some s') :
    (s'.trial = [] ∨ ∃ id, s'.lastAccepted = some id ∧ w / 2 < |s'.value.getD id 0|)
    ∧ (∀ c : Nat, s'.value.getD c 0 ≠ s.value.getD c 0 →
        c ∈ s'.trial ∨ (s'.evaluated.getD c false = true ∧ s.evaluated.getD c false = false))
    ∧ (s.trial = [] → fmLoop m sqrtFn w fuel s = some s) := by
  obtain ⟨g1, g2, g3, g4, g5⟩ := fmLoop_master m sqrtFn w fuel s s' h hnd htu htl
    (adjTargetsBelow_spec _ _ hadj)
  refine ⟨g5 hfuel, g4, ?_⟩
  intro htr
  cases fuel with
  | zero => rfl
  | succ fuel =>
    unfold fmLoop
    rw [htr]

theorem c6_loop_termination_and_frame_witness :
    (idleState.trial = [] ∨ ∃ id, idleState.lastAccepted = some id ∧
        defaultNarrowBandWidth / 2 < |idleState.value.getD id 0|)
    ∧ (∀ c : Nat, idleState.value.getD c 0 ≠ idleState.value.getD c 0 →
        c ∈ idleState.trial ∨ (idleState.evaluated.getD c false = true
          ∧ idleState.evaluated.getD c false = false))
    ∧ (idleState.trial = [] →
        fmLoop mesh1D8 ratSqrt defaultNarrowBandWidth 0 idleState = some idleState) :=
  c6_loop_termination_and_frame mesh1D8 ratSqrt defaultNarrowBandWidth 0 idleState idleState
    (by decide) (by decide) (by decide) (by decide) (by decide) (by decide)

theorem SameSign.symm {a b : ℚ} (h : SameSign a b) : SameSign b a := by
  rcases h with ⟨h1, h2⟩ | ⟨h1, h2⟩
  · exact Or.inl ⟨h2, h1⟩
  · exact Or.inr ⟨h2, h1⟩

theorem SameSign.trans {a b c : ℚ} (h1 : SameSign a b) (h2 : SameSign b c) :
    SameSign a c := by
  rcases h1 with ⟨x1, x2⟩ | ⟨x1, x2⟩ <;> rcases h2 with ⟨y1, y2⟩ | ⟨y1, y2⟩
  all_goals first
    | exact Or.inl ⟨by linarith, by linarith⟩
    | exact Or.inr ⟨by linarith, by linarith⟩

theorem sameSign_of_mul_pos {a b : ℚ} (h : 0 < a * b) : SameSign a b :=
  mul_pos_iff.mp h

theorem set_of_le {α : Type} (l : List α) (i : Nat) (a : α) (h : l.length ≤ i) :
    l.set i a = l := by
  induction l generalizing i with
  | nil => rfl
  | cons x xs ih =>
    cases i with
    | zero => simp at h
    | succ n =>
      rw [List.set_cons_succ]
      rw [ih n (by simpa using h)]

theorem insertCand_mem (p q : ℚ × (ℚ × ℚ)) (l : List (ℚ × (ℚ × ℚ))) :
    q ∈ insertCand p l ↔ q = p ∨ q ∈ l := by
  induction l with
  | nil => simp [insertCand]
  | cons r rs ih =>
    unfold insertCand
    by_cases hc : r.1 ≤ p.1
    · rw [if_pos hc]
      simp only [List.mem_cons, ih]
      tauto
    · rw [if_neg hc]
      simp only [List.mem_cons]

theorem sortCands_mem (l : List (ℚ × (ℚ × ℚ))) (q : ℚ × (ℚ × ℚ)) :
    q ∈ sortCands l ↔ q ∈ l := by
  have haux : ∀ (xs : List (ℚ × (ℚ × ℚ))) (acc : List (ℚ × (ℚ × ℚ))),
      (q ∈ xs.foldl (fun a p => insertCand p a) acc ↔ q ∈ acc ∨ q ∈ xs) := by
    intro xs
    induction xs with
    | nil => simp
    | cons p ps ih =>
      intro acc
      rw [List.foldl_cons, ih]
      rw [insertCand_mem]
      simp only [List.mem_cons]
      tauto
  unfold sortCands
  rw [haux]
  simp

theorem cellCandidates_pos (m : Mesh) (value : List ℚ) (c : Nat)
    (hvp : validDistsPos m = true) (hnz : value.getD c 0 ≠ 0) :
    ∀ p ∈ cellCandidates m value c, 0 < p.1 := by
  intro p hp
  unfold cellCandidates at hp
  rcases List.mem_filterMap.mp hp with ⟨k, _, hfk⟩
  cases hs : (m.cellToCellIDs.getD c []).getD k none with
  | none =>
    rw [hs] at hfk
    exact absurd hfk (by simp)
  | some j =>
    rw [hs] at hfk
    dsimp only at hfk
    by_cases hple : value.getD c 0 * value.getD j 0 ≤ 0
    · rw [if_pos hple] at hfk
      have hp1 : p.1 = |value.getD c 0 * slotDist m c k /
          (value.getD c 0 - value.getD j 0)| := by
        injection hfk with hfk'
        rw [← hfk']
      have hd : 0 < slotDist m c k := validDistsPos_spec m hvp c k j hs
      have hdiff : value.getD c 0 - value.getD j 0 ≠ 0 := by
        intro heq
        have : value.getD c 0 = value.getD j 0 := by linarith
        rw [← this] at hple
        have : 0 < value.getD c 0 * value.getD c 0 := mul_self_pos.mpr hnz
        linarith
      rw [hp1]
      exact abs_pos.mpr (div_ne_zero (mul_ne_zero hnz (ne_of_gt hd)) hdiff)
    · rw [if_neg hple] at hfk
      exact absurd hfk (by simp)

theorem noCandidates_products_pos (m : Mesh) (value : List ℚ) (c : Nat)
    (he : cellCandidates m value c = []) (k : Nat) (j : Nat)
    (hs : (m.cellToCellIDs.getD c []).getD k none = some j) :
    0 < value.getD c 0 * value.getD j 0 := by
  have hk : k < (m.cellToCellIDs.getD c []).length := by
    by_contra hk
    rw [List.getD_eq_default _ _ (Nat.le_of_not_lt hk)] at hs
    exact Option.noConfusion hs
  unfold cellCandidates at he
  have hnone := List.filterMap_eq_nil_iff.mp he k (List.mem_range.mpr hk)
  rw [hs] at hnone
  dsimp only at hnone
  by_cases hple : value.getD c 0 * value.getD j 0 ≤ 0
  · rw [if_pos hple] at hnone
    exact absurd hnone (by simp)
  · exact not_le.mp hple

theorem locatorValue_samesign (m : Mesh) (sqrtFn : ℚ → ℚ) (value : List ℚ) (c : Nat)
    (hdim : m.dim ≠ 2) (hvp : validDistsPos m = true) (hnz : value.getD c 0 ≠ 0) :
    SameSign (locatorValue m sqrtFn value c) (value.getD c 0) := by
  unfold locatorValue
  cases hsc : sortCands (cellCandidates m value c) with
  | nil =>
    dsimp only
    rcases hnz.lt_or_lt with hneg | hpos
    · exact Or.inr ⟨hneg, hneg⟩
    · exact Or.inl ⟨hpos, hpos⟩
  | cons hd tl =>
    obtain ⟨s, ns⟩ := hd
    dsimp only
    rw [if_neg hdim]
    have hmem : (s, ns) ∈ cellCandidates m value c := by
      rw [← sortCands_mem, hsc]
      exact List.mem_cons_self _ _
    have hspos : 0 < s := cellCandidates_pos m value c hvp hnz (s, ns) hmem
    unfold signOfCell
    rcases hnz.lt_or_lt with hneg | hpos
    · rw [if_neg (not_lt.mpr (le_of_lt hneg))]
      exact Or.inr ⟨by nlinarith, hneg⟩
    · rw [if_pos hpos]
      exact Or.inl ⟨by nlinarith, hpos⟩

theorem trialN_le_rowlen (m : Mesh) (id : Nat) (eflag : List Bool) :
    trialN m id eflag ≤ (m.cellToCellIDs.getD id []).length := by
  unfold trialN
  calc ((trialAdjIDs m id).map (fun j => eflag.getD j false)).count true
      ≤ ((trialAdjIDs m id).map (fun j => eflag.getD j false)).length :=
        List.count_le_length _ _
    _ = (trialAdjIDs m id).length := List.length_map _ _
    _ = (m.cellToCellIDs.getD id []).length := List.length_map _ _

theorem calcTrialValue_oneNbr_shape (m : Mesh) (sqrtFn : ℚ → ℚ) (id : Nat)
    (eflag : List Bool) (v ext : List ℚ) (p : ℚ × ℚ)
    (hdim : m.dim ≠ 2) (hrow : (m.cellToCellIDs.getD id []).length ≤ 2)
    (h : calcTrialValue m sqrtFn id eflag v ext = some p) :
    p = (slotValue m id v (idx0 m id eflag v)
          + signOfCell v id * slotDist m id (idx0 m id eflag v),
         slotExt m id ext (idx0 m id eflag v)) := by
  have hcr : branchCross m id eflag v = 0 := by
    unfold branchCross
    rw [if_neg hdim]
  have hNle : trialN m id eflag ≤ 2 := le_trans (trialN_le_rowlen m id eflag) hrow
  by_cases h0 : trialN m id eflag = 0
  · have he0 : effN m id eflag v = 0 := (effN_eq_zero_iff m id eflag v).mpr h0
    unfold calcTrialValue at h
    rw [if_pos he0] at h
    exact Option.noConfusion h
  · have heN : effN m id eflag v = 1 := by
      rcases Nat.lt_or_ge (trialN m id eflag) 2 with h2 | h2
      · have h1 : trialN m id eflag = 1 := by omega
        unfold effN
        rw [if_neg, h1]
        rintro ⟨hgt, _, _⟩
        omega
      · have h2' : trialN m id eflag = 2 := by omega
        unfold effN
        rw [if_pos ⟨by omega, by rw [hcr]; norm_num, h2'⟩]
    unfold calcTrialValue at h
    rw [heN, if_neg (by omega), if_pos rfl] at h
    injection h with h'
    rw [← h']
    rfl

theorem slotAdjID_cases (m : Mesh) (id k : Nat) :
    slotAdjID m id k = id ∨
      ∃ j, (m.cellToCellIDs.getD id []).getD k none = some j ∧ slotAdjID m id k = j := by
  unfold slotAdjID trialAdjIDs
  rcases Nat.lt_or_ge k (m.cellToCellIDs.getD id []).length with hk | hk
  · rw [List.getD_eq_getElem?_getD, List.getElem?_map, List.getElem?_eq_getElem hk]
    cases ho : (m.cellToCellIDs.getD id [])[k] with
    | none =>
      left
      rfl
    | some j =>
      right
      refine ⟨j, ?_, rfl⟩
      rw [List.getD_eq_getElem?_getD, List.getElem?_eq_getElem hk, ho]
      rfl
  · left
    rw [List.getD_eq_default]
    rw [List.length_map]
    exact hk

theorem trialValue_samesign (m : Mesh) (sqrtFn : ℚ → ℚ) (id : Nat) (eflag : List Bool)
    (v ext : List ℚ) (value0 : List ℚ) (n : Nat) (d e : ℚ)
    (hdim : m.dim ≠ 2)
    (hrows : rowsAtMost m.cellToCellIDs 2 = true)
    (hdn : tableNonneg m.cellToCellDistances = true)
    (hlen0 : value0.length = n)
    (hgood : ∀ c, c < n → SameSign (v.getD c 0) (value0.getD c 0))
    (hid : id < n)
    (hni : cellCandidates m value0 id = [])
    (h : calcTrialValue m sqrtFn id eflag v ext = some (d, e)) :
    SameSign d (value0.getD id 0) := by
  have hshape := calcTrialValue_oneNbr_shape m sqrtFn id eflag v ext (d, e) hdim
    (rowsAtMost_spec m.cellToCellIDs 2 hrows id) h
  have hd : d = slotValue m id v (idx0 m id eflag v)
      + signOfCell v id * slotDist m id (idx0 m id eflag v) :=
    congrArg Prod.fst hshape
  have hvt : SameSign (slotValue m id v (idx0 m id eflag v)) (value0.getD id 0) := by
    unfold slotValue
    rcases slotAdjID_cases m id (idx0 m id eflag v) with ht | ⟨j, hslot, ht⟩
    · rw [ht]
      exact hgood id hid
    · rw [ht]
      have hprod := noCandidates_products_pos m value0 id hni _ j hslot
      have hj0 : value0.getD j 0 ≠ 0 := by
        intro hz
        rw [hz, mul_zero] at hprod
        exact lt_irrefl 0 hprod
      have hjn : j < n := by
        by_contra hjn
        rw [List.getD_eq_default value0 0 (hlen0 ▸ Nat.le_of_not_lt hjn)] at hj0
        exact hj0 rfl
      exact SameSign.trans (hgood j hjn) (SameSign.symm (sameSign_of_mul_pos hprod))
  have hd0 : 0 ≤ slotDist m id (idx0 m id eflag v) := by
    unfold slotDist
    exact tableNonneg_spec m.cellToCellDistances hdn id _
  have hvid : SameSign (v.getD id 0) (value0.getD id 0) := hgood id hid
  rw [hd]
  unfold signOfCell
  rcases hvt with ⟨hv1, hv2⟩ | ⟨hv1, hv2⟩
  · have : 0 < v.getD id 0 := by
      rcases hvid with ⟨h1, _⟩ | ⟨_, h2⟩
      · exact h1
      · exact absurd hv2 (not_lt.mpr (le_of_lt h2))
    rw [if_pos this]
    exact Or.inl ⟨by linarith, hv2⟩
  · have : ¬ 0 < v.getD id 0 := by
      rcases hvid with ⟨_, h2⟩ | ⟨h1, _⟩
      · exact absurd hv2 (not_lt.mpr (le_of_lt h2))
      · exact not_lt.mpr (le_of_lt h1)
    rw [if_neg this]
    exact Or.inr ⟨by linarith, hv2⟩

theorem getD_false_of_set_true (l : List Bool) (i : Nat)
    (h : (l.set i true).getD i false = false) : l.getD i false = false := by
  rcases Nat.lt_or_ge i l.length with hi | hi
  · rw [getD_set_self l i hi true false] at h
    exact Bool.noConfusion h
  · rw [set_of_le l i true hi] at h
    exact h

theorem relaxOne_samesign (m : Mesh) (sqrtFn : ℚ → ℚ) (value0 : List ℚ) (n : Nat)
    (hdim : m.dim ≠ 2)
    (hrows : rowsAtMost m.cellToCellIDs 2 = true)
    (hdn : tableNonneg m.cellToCellDistances = true)
    (hlen0 : value0.length = n)
    (s : FMState) (slot : Option Nat) (s2 : FMState)
    (h : relaxOne m sqrtFn s slot = some s2)
    (hlen : s.value.length = n)
    (hgood : ∀ c, c < n → SameSign (s.value.getD c 0) (value0.getD c 0))
    (hni : ∀ c, c < n → s.evaluated.getD c false = false → cellCandidates m value0 c = []) :
    s2.value.length = n ∧ s2.evaluated = s.evaluated
      ∧ (∀ c, c < n → SameSign (s2.value.getD c 0) (value0.getD c 0)) := by
  cases slot with
  | none =>
    unfold relaxOne at h
    have hs : s = s2 := by injection h
    subst hs
    exact ⟨hlen, rfl, hgood⟩
  | some adjID =>
    unfold relaxOne at h
    dsimp only at h
    by_cases he : s.evaluated.getD adjID false = true
    · rw [if_pos he] at h
      have hs : s = s2 := by injection h
      subst hs
      exact ⟨hlen, rfl, hgood⟩
    · rw [if_neg he] at h
      have hef : s.evaluated.getD adjID false = false := by
        revert he
        cases s.evaluated.getD adjID false <;> simp
      cases hct : calcTrialValue m sqrtFn adjID s.evaluated s.value s.ext with
      | none =>
        rw [hct] at h
        exact Option.noConfusion h
      | some de =>
        obtain ⟨d, e⟩ := de
        rw [hct] at h
        have hs2 : s2 = { s with
            value := s.value.set adjID d
            ext := s.ext.set adjID e
            trial := if adjID ∈ s.trial then s.trial else s.trial ++ [adjID] } := by
          injection h with h'
          exact h'.symm
        subst hs2
        refine ⟨by simp [List.length_set, hlen], rfl, ?_⟩
        intro c hc
        by_cases hceq : c = adjID
        · subst hceq
          have hclen : c < s.value.length := by omega
          dsimp only
          rw [getD_set_self s.value c hclen d 0]
          exact trialValue_samesign m sqrtFn c s.evaluated s.value s.ext value0 n d e
            hdim hrows hdn hlen0 hgood hc (hni c hc hef) hct
        · dsimp only
          rw [getD_set_ne s.value adjID c hceq d 0]
          exact hgood c hc

theorem relaxAll_samesign (m : Mesh) (sqrtFn : ℚ → ℚ) (value0 : List ℚ) (n : Nat)
    (hdim : m.dim ≠ 2)
    (hrows : rowsAtMost m.cellToCellIDs 2 = true)
    (hdn : tableNonneg m.cellToCellDistances = true)
    (hlen0 : value0.length = n)
    (slots : List (Option Nat)) :
    ∀ (s s2 : FMState),
    relaxAll m sqrtFn slots s = some s2 →
    s.value.length = n →
    (∀ c, c < n → SameSign (s.value.getD c 0) (value0.getD c 0)) →
    (∀ c, c < n → s.evaluated.getD c false = false → cellCandidates m value0 c = []) →
    s2.value.length = n ∧ s2.evaluated = s.evaluated
      ∧ (∀ c, c < n → SameSign (s2.value.getD c 0) (value0.getD c 0)) := by
  induction slots with
  | nil =>
    intro s s2 h hlen hgood hni
    unfold relaxAll at h
    simp only [List.foldlM] at h
    have hs : s = s2 := by injection h
    subst hs
    exact ⟨hlen, rfl, hgood⟩
  | cons o os ih =>
    intro s s2 h hlen hgood hni
    unfold relaxAll at h
    simp only [List.foldlM] at h
    rcases Option.bind_eq_some.mp h with ⟨s1, h1, h2⟩
    obtain ⟨g1, g2, g3⟩ := relaxOne_samesign m sqrtFn value0 n hdim hrows hdn hlen0
      s o s1 h1 hlen hgood hni
    have hni1 : ∀ c, c < n → s1.evaluated.getD c false = false →
        cellCandidates m value0 c = [] := by
      intro c hc hcf
      rw [g2] at hcf
      exact hni c hc hcf
    obtain ⟨k1, k2, k3⟩ := ih s1 s2 h2 g1 g3 hni1
    exact ⟨k1, k2.trans g2, k3⟩

theorem fmLoop_samesign (m : Mesh) (sqrtFn : ℚ → ℚ) (w : ℚ) (value0 : List ℚ) (n : Nat)
    (hdim : m.dim ≠ 2)
    (hrows : rowsAtMost m.cellToCellIDs 2 = true)
    (hdn : tableNonneg m.cellToCellDistances = true)
    (hlen0 : value0.length = n) :
    ∀ (fuel : Nat) (s s' : FMState),
    fmLoop m sqrtFn w fuel s = some s' →
    s.value.length = n →
    (∀ c, c < n → SameSign (s.value.getD c 0) (value0.getD c 0)) →
    (∀ c, c < n → s.evaluated.getD c false = false → cellCandidates m value0 c = []) →
    (∀ c, c < n → SameSign (s'.value.getD c 0) (value0.getD c 0)) := by
  intro fuel
  induction fuel with
  | zero =>
    intro s s' h hlen hgood hni
    have hs : s = s' := by
      unfold fmLoop at h
      injection h
    subst hs
    exact hgood
  | succ fuel ih =>
    intro s s' h hlen hgood hni
    cases htr : s.trial with
    | nil =>
      unfold fmLoop at h
      rw [htr] at h
      have hs : s = s' := by injection h
      subst hs
      exact hgood
    | cons x xs =>
      unfold fmLoop at h
      rw [htr] at h
      dsimp only at h
      cases hopt : relaxAll m sqrtFn
          (m.cellToCellIDs.getD (selectMinID s.value (x :: xs)) [])
          { value := s.value, ext := s.ext,
            evaluated := s.evaluated.set (selectMinID s.value (x :: xs)) true,
            trial := (x :: xs).erase (selectMinID s.value (x :: xs)),
            lastAccepted := some (selectMinID s.value (x :: xs)) } with
        | none =>
          rw [hopt] at h
          exact Option.noConfusion h
        | some s2 =>
          rw [hopt] at h
          dsimp only at h
          have hni1 : ∀ c, c < n →
              (s.evaluated.set (selectMinID s.value (x :: xs)) true).getD c false = false →
              cellCandidates m value0 c = [] := by
            intro c hc hcf
            by_cases hceq : c = selectMinID s.value (x :: xs)
            · have h2 : s.evaluated.getD c false = false := by
                rw [hceq] at hcf
                have h3 := getD_false_of_set_true s.evaluated _ hcf
                rw [← hceq] at h3
                exact h3
              exact hni c hc h2
            · rw [getD_set_ne s.evaluated _ c hceq true false] at hcf
              exact hni c hc hcf
          obtain ⟨g1, g2, g3⟩ := relaxAll_samesign m sqrtFn value0 n hdim hrows hdn hlen0
            _ _ s2 hopt hlen hgood hni1
          have hni2 : ∀ c, c < n → s2.evaluated.getD c false = false →
              cellCandidates m value0 c = [] := by
            intro c hc hcf
            rw [g2] at hcf
            exact hni1 c hc hcf
          by_cases hbr : w / 2 < |s2.value.getD (selectMinID s.value (x :: xs)) 0|
          · rw [if_pos hbr] at h
            have hs : s2 = s' := by injection h
            subst hs
            exact g3
          · rw [if_neg hbr] at h
            exact ih s2 s' h g1 g3 hni2

theorem seeds_samesign (m : Mesh) (sqrtFn : ℚ → ℚ) (value0 : List ℚ) (n : Nat)
    (hdim : m.dim ≠ 2)
    (hrows : rowsAtMost m.cellToCellIDs 2 = true)
    (hdn : tableNonneg m.cellToCellDistances = true)
    (hlen0 : value0.length = n)
    (eflag : List Bool) (ids : List Nat) :
    ∀ (ve ve' : List ℚ × List ℚ),
    List.foldlM (seedStep m sqrtFn eflag) ve ids = some ve' →
    (∀ c ∈ ids, c < n ∧ cellCandidates m value0 c = []) →
    ve.1.length = n →
    (∀ c, c < n → SameSign (ve.1.getD c 0) (value0.getD c 0)) →
    ve'.1.length = n ∧ (∀ c, c < n → SameSign (ve'.1.getD c 0) (value0.getD c 0)) := by
  induction ids with
  | nil =>
    intro ve ve' h _ hlen hgood
    simp only [List.foldlM] at h
    have hv : ve = ve' := by injection h
    subst hv
    exact ⟨hlen, hgood⟩
  | cons id ids ih =>
    intro ve ve' h hids hlen hgood
    simp only [List.foldlM] at h
    rcases Option.bind_eq_some.mp h with ⟨ve1, h1, h2⟩
    unfold seedStep at h1
    cases hct : calcTrialValue m sqrtFn id eflag ve.1 ve.2 with
    | none =>
      rw [hct] at h1
      exact Option.noConfusion h1
    | some de =>
      obtain ⟨d, e⟩ := de
      rw [hct] at h1
      have hve1 : ve1 = (ve.1.set id d, ve.2.set id e) := by
        injection h1 with h1'
        exact h1'.symm
      subst hve1
      have hidn := hids id (List.mem_cons_self id ids)
      have hgood1 : ∀ c, c < n → SameSign ((ve.1.set id d).getD c 0) (value0.getD c 0) := by
        intro c hc
        by_cases hceq : c = id
        · rw [hceq, getD_set_self ve.1 id (by omega) d 0]
          rw [← hceq]
          have hsign := trialValue_samesign m sqrtFn id eflag ve.1 ve.2 value0 n d e
            hdim hrows hdn hlen0 hgood hidn.1 hidn.2 hct
          rw [hceq]
          exact hsign
        · rw [getD_set_ne ve.1 id c hceq d 0]
          exact hgood c hc
      exact ih _ ve' h2 (fun c hc => hids c (List.mem_cons_of_mem id hc))
        (by simp [List.length_set, hlen]) hgood1

/-- C4 (amended): on a mesh whose dimension is not 2 — in particular
every 1-D mesh — with at most two neighbor slots per cell, nonnegative
distances that are positive on unmasked slots, and an everywhere-nonzero
initial field, every cell of a full `calcDistanceFunction` pass (with
`deleteIslands = False`, under which the delete-islands exception of the
claim is vacuous) keeps the strict sign of its pre-propagation value. -/
theorem c4_sign_preservation_1d (m : Mesh) (sqrtFn : ℚ → ℚ) (value0 : List ℚ) (w : ℚ)
    (fuel : Nat) (res : List ℚ)
    (hdim : m.dim ≠ 2)
    (hrows : rowsAtMost m.cellToCellIDs 2 = true)
    (hdn : tableNonneg m.cellToCellDistances = true)
    (hvp : validDistsPos m = true)
    (hlen0 : value0.length = m.numberOfCells)
    (hnz : ∀ c ∈ List.range m.numberOfCells, value0.getD c 0 ≠ 0)
    (h : calcDistanceFunction m sqrtFn value0 w false fuel = some res) :
    ∀ c, c < m.numberOfCells → SameSign (res.getD c 0) (value0.getD c 0) := by
  unfold calcDistanceFunction at h
  obtain ⟨sfin, haux, hres⟩ := Option.map_eq_some'.mp h
  unfold calcDistanceFunctionAux at haux
  simp only [Bool.false_eq_true, if_false] at haux
  rcases Option.bind_eq_some.mp haux with ⟨ext1, hspread, hrest⟩
  rcases Option.bind_eq_some.mp hrest with ⟨ve, hseeds, hloop⟩
  have hnz' : ∀ c, c < m.numberOfCells → value0.getD c 0 ≠ 0 :=
    fun c hc => hnz c (List.mem_range.mpr hc)
  have hiface : ∀ c, c < m.numberOfCells →
      ((List.range m.numberOfCells).map
        (fun c => !(cellCandidates m value0 c).isEmpty)).getD c false = false →
      cellCandidates m value0 c = [] := by
    intro c hc hcf
    rw [getD_map_range _ _ c hc] at hcf
    simp only [Bool.not_eq_false'] at hcf
    exact List.isEmpty_iff.mp hcf
  have hsdlen : ((List.range m.numberOfCells).map
      (fun c => locatorValue m sqrtFn value0 c)).length = m.numberOfCells := by
    rw [List.length_map, List.length_range]
  have hsdgood : ∀ c, c < m.numberOfCells →
      SameSign (((List.range m.numberOfCells).map
        (fun c => locatorValue m sqrtFn value0 c)).getD c 0) (value0.getD c 0) := by
    intro c hc
    rw [getD_map_range _ _ c hc]
    exact locatorValue_samesign m sqrtFn value0 c hdim hvp (hnz' c hc)
  have htids : ∀ c ∈ (List.range m.numberOfCells).filter (fun c =>
      (!(((List.range m.numberOfCells).map
          (fun c => !(cellCandidates m value0 c).isEmpty)).getD c false)) &&
        ((m.cellToCellIDs.getD c []).filterMap (fun o => o)).any (fun j =>
          ((List.range m.numberOfCells).map
            (fun c => !(cellCandidates m value0 c).isEmpty)).getD j false)),
      c < m.numberOfCells ∧ cellCandidates m value0 c = [] := by
    intro c hcmem
    obtain ⟨hcr, hcp⟩ := List.mem_filter.mp hcmem
    have hc : c < m.numberOfCells := List.mem_range.mp hcr
    refine ⟨hc, ?_⟩
    have hband := (Bool.and_eq_true _ _).mp hcp
    have hnot := hband.1
    rw [Bool.not_eq_true'] at hnot
    exact hiface c hc hnot
  obtain ⟨hvelen, hvegood⟩ := seeds_samesign m sqrtFn value0 m.numberOfCells hdim hrows hdn
    hlen0 _ _ _ _ hseeds htids hsdlen hsdgood
  have hfin := fmLoop_samesign m sqrtFn w value0 m.numberOfCells hdim hrows hdn hlen0
    fuel _ sfin hloop hvelen hvegood (by
      intro c hc hcf
      exact hiface c hc hcf)
  intro c hc
  rw [← hres]
  exact hfin c hc

theorem c4_sign_preservation_1d_witness :
    SameSign (([-7/4, -5/4, -3/4, -1/4, 1/4, 3/4, 5/4, 7/4] : List ℚ).getD 0 0)
      (([-1, -1, -1, -1, 1, 1, 1, 1] : List ℚ).getD 0 0) :=
  c4_sign_preservation_1d mesh1D8 ratSqrt [-1, -1, -1, -1, 1, 1, 1, 1]
    defaultNarrowBandWidth 8 [-7/4, -5/4, -3/4, -1/4, 1/4, 3/4, 5/4, 7/4]
    (by decide) (by decide) (by decide) (by decide) (by decide) (by decide) (by decide)
    0 (by decide)
